import Mathlib

/-! Sales-report analysis: a shallow embedding of `analyzer.go`.

The development models the part of `analyzeExcel` that runs once the sheet has been
decoded into rows (`f.GetRows`), together with `sortItems` and `isPriority`, and from
`main.go` the part of `handleUpdate` that answers a text message and delivers a report.

Modelling conventions.

* A sheet is a `List (List String)`; cells are Lean strings (sequences of code points).
* Go `float64` values are the values of `Float64`: a finite value (with its exact rational
  value), the two infinities, or NaN.  Addition rounds the exact sum to the nearest
  `float64`, ties to even, as IEEE 754 binary64 does.  The zero of either sign is the one
  value `fin 0`: the two compare equal and add alike, and no total of this program is a
  negative zero, since every total starts from `0.0`.  Every `float64` is a value of the
  type; what is proved of all values of the type holds of the `float64` ones.
* Go `int` indices are `Int`, so that the initial value `-1` of the column indices is
  represented as in the source.  Indexing a slice out of range is the outcome `panic`.
* The two things the source takes from its runtime are the fields of `Runtime`:
  what `fmt.Sscanf(cell, "%f", &x)` stores, and the order in which `range` walks a map.
-/

namespace ExcelAnalytics

/-! ## Go's `float64` -/

/-- Rounding of a non-negative rational to the nearest natural number, ties to even. -/
def roundHalfEven (x : ℚ) : Nat :=
  let f := ⌊x⌋.toNat
  let r := x - f
  if r < 1 / 2 then f
  else if 1 / 2 < r then f + 1
  else if f % 2 = 0 then f else f + 1

/-- A value of Go's `float64`: a finite value, given by the rational number it is, an
infinity, or NaN. -/
inductive Float64 where
  | fin (q : ℚ)
  | posInf
  | negInf
  | nan
deriving DecidableEq

/-- The power `2 ^ e` for an integer exponent. -/
def pow2 (e : Int) : ℚ :=
  if 0 ≤ e then ((2 ^ e.toNat : Nat) : ℚ) else 1 / ((2 ^ (-e).toNat : Nat) : ℚ)

/-- The number `l` with `2 ^ l ≤ n < 2 ^ (l + 1)` for `n ≥ 1`, found by halving `n`, at
most `fuel` times. -/
def log2Fuel : Nat → Nat → Nat
  | 0, _ => 0
  | fuel + 1, n => if 2 ≤ n then log2Fuel fuel (n / 2) + 1 else 0

/-- The integer `l` with `2 ^ l ≤ a < 2 ^ (l + 1)`, for a positive rational `a`. -/
def floorLog2 (a : ℚ) : Int :=
  let n := a.num.natAbs
  let l : Int := (log2Fuel n n : Int) - (log2Fuel a.den a.den : Int)
  if pow2 l ≤ a then l else l - 1

/-- Rounding of a rational number to the nearest `float64`, ties to even: 53 significant
bits, steps of `2 ^ (-1074)` at the bottom of the range, and an infinity from
`2 ^ 1024` on. -/
def Float64.ofRat (q : ℚ) : Float64 :=
  if q = 0 then .fin 0
  else
    let e := max (floorLog2 |q| - 52) (-1074)
    let r := (roundHalfEven (|q| / pow2 e) : ℚ) * pow2 e
    if pow2 1024 ≤ r then (if q < 0 then .negInf else .posInf)
    else .fin (if q < 0 then -r else r)

/-- The operator `+` of `float64`. -/
def Float64.add : Float64 → Float64 → Float64
  | .fin a, .fin b => Float64.ofRat (a + b)
  | .nan, _ => .nan
  | _, .nan => .nan
  | .posInf, .negInf => .nan
  | .negInf, .posInf => .nan
  | .posInf, _ => .posInf
  | _, .posInf => .posInf
  | .negInf, _ => .negInf
  | _, .negInf => .negInf

/-- The operator `<` of `float64`: false whenever an operand is NaN. -/
def Float64.blt : Float64 → Float64 → Bool
  | .fin a, .fin b => decide (a < b)
  | .negInf, .fin _ => true
  | .negInf, .posInf => true
  | .fin _, .posInf => true
  | _, _ => false

/-- The operator `<=` of `float64`: false whenever an operand is NaN. -/
def Float64.ble : Float64 → Float64 → Bool
  | .fin a, .fin b => decide (a ≤ b)
  | .negInf, .fin _ => true
  | .negInf, .posInf => true
  | .fin _, .posInf => true
  | .negInf, .negInf => true
  | .posInf, .posInf => true
  | _, _ => false

instance : Add Float64 := ⟨Float64.add⟩

instance : LT Float64 := ⟨fun a b => Float64.blt a b = true⟩

instance : LE Float64 := ⟨fun a b => Float64.ble a b = true⟩

instance (a b : Float64) : Decidable (a < b) :=
  inferInstanceAs (Decidable (Float64.blt a b = true))

instance (a b : Float64) : Decidable (a ≤ b) :=
  inferInstanceAs (Decidable (Float64.ble a b = true))

/-- A numeral of the source, such as `0.0`: the finite value it names. -/
instance (n : Nat) : OfNat Float64 n := ⟨.fin (n : ℚ)⟩

/-! ## Data model -/

/-- Aggregation unit, `type Item struct`. -/
structure Item where
  Name : String
  Quantity : Float64
  Sum : Float64
  IsPriority : Bool
deriving DecidableEq

/-- Output of one run, `type AnalysisResult struct`. -/
structure AnalysisResult where
  ReportDate : String
  Text : String
  Items : List Item
  TotalSum : Float64
deriving DecidableEq

/-- What a run of the analysis core can end in: a result (`return &AnalysisResult, nil`),
an error value (`return nil, fmt.Errorf(msg)`), or a run-time panic raised by an index
out of range. -/
inductive Outcome (α : Type) where
  | ok : α → Outcome α
  | error : String → Outcome α
  | panic : Outcome α
deriving DecidableEq

/-- Sequencing of two steps: the second runs only when the first produced a value. -/
def Outcome.bind {α β : Type} : Outcome α → (α → Outcome β) → Outcome β
  | .ok a, f => f a
  | .error msg, _ => .error msg
  | .panic, _ => .panic

/-- The services the source takes from the Go runtime and standard library.
`sscanf cell` is the value `fmt.Sscanf(cell, "%f", &x)` stores in `x`, or `none` when the
scan fails and `x` is left untouched.  `mapRange m` is the order in which
`for _, item := range itemsMap` visits the entries of the map `m`. -/
structure Runtime where
  sscanf : String → Option Float64
  mapRange : List Item → List Item

/-! ## Priority table and `isPriority` -/

/-- The keys of `var priorityDrinks = map[string]bool`; every key maps to `true`. -/
def priorityDrinks : List String :=
  [ "espresso",
    "double espresso decaffeinated",
    "chocolate truffle",
    "sakura latte",
    "matcha latte",
    "berry raf",
    "kakao banana",
    "masala tea latte",
    "cheese & orange latte",
    "double cappuccino vegan",
    "flat white",
    "flat white decaffeinated",
    "flat white vegan",
    "latte",
    "latte decaffeinated",
    "latte vegan",
    "ice latte",
    "ice latte decaffeinated",
    "espresso decaffeinated",
    "ice latte vegan",
    "espresso tonic",
    "espresso tonic decaffeinated",
    "bumblebee",
    "tea",
    "doppio(double espresso)",
    "americano",
    "americano decaffeinated",
    "cappuccino",
    "cappuccino decaffeinated",
    "cacao",
    "hot chocolate",
    "cappuccino vegan",
    "double americano",
    "double cappuccino" ]

/-- White space as `unicode.IsSpace` defines it: the characters `strings.TrimSpace`
removes from both ends. -/
def isSpace (c : Char) : Bool :=
  let n := c.toNat
  (9 ≤ n && n ≤ 13) || n = 0x20 || n = 0x85 || n = 0xA0 || n = 0x1680 ||
    (0x2000 ≤ n && n ≤ 0x200A) || n = 0x2028 || n = 0x2029 || n = 0x202F ||
    n = 0x205F || n = 0x3000

/-- The function `strings.TrimSpace`: drop leading and trailing white space. -/
def trimSpace (s : String) : String :=
  String.mk ((s.data.dropWhile isSpace).reverse.dropWhile isSpace).reverse

/-- Lower-casing of one code point as far as it can reach ASCII: the letters `A`-`Z`,
and the two non-ASCII code points whose lower case is an ASCII letter (KELVIN SIGN and
LATIN CAPITAL LETTER I WITH DOT ABOVE).  Every other code point is kept: its lower case
is not an ASCII character, which is all that membership in the ASCII-only table can
observe. -/
def toLowerChar (c : Char) : Char :=
  if c.toNat = 0x212A then 'k'
  else if c.toNat = 0x130 then 'i'
  else c.toLower

/-- The function `strings.ToLower`, code point by code point. -/
def toLower (s : String) : String :=
  String.mk (s.data.map toLowerChar)

/-- The function `func isPriority(name string) bool`: look the lower-cased, trimmed name up in the
table (a missing key reads as `false`). -/
def isPriority (name : String) : Bool :=
  decide (toLower (trimSpace name) ∈ priorityDrinks)

/-! ## Header and column discovery -/

/-- The function `strings.Contains(s, sub)`. -/
def strContains (s sub : String) : Bool :=
  decide (sub.data <:+: s.data)

/-- The inner loop of header discovery: does some cell of the row contain the marker? -/
def isHeaderRow (row : List String) : Bool :=
  row.any (fun cell => strContains cell "Denumire marfa")

/-- The header-discovery loop, started at row index `i`: the index and the cells of the
first row that has a cell containing the marker; `none` stands for `headerRow == -1`. -/
def findHeader : List (List String) → Nat → Option (Nat × List String)
  | [], _ => none
  | row :: rest, i =>
    if isHeaderRow row then some (i, row) else findHeader rest (i + 1)

/-- The four column indices, each `-1` until its header label is met. -/
structure Columns where
  nameIdx : Int
  qtyIdx : Int
  sumIdx : Int
  dateIdx : Int
deriving DecidableEq

/-- One iteration of the column-discovery loop on header cell `h` at index `i`. -/
def columnStep (c : Columns) (i : Int) (h : String) : Columns :=
  if h = "Denumire marfa" then { c with nameIdx := i }
  else if h = "Cantitate" then { c with qtyIdx := i }
  else if h = "Suma cu TVA fără reducere" then { c with sumIdx := i }
  else if h = "Data" then { c with dateIdx := i }
  else c

/-- The column-discovery loop `for i, h := range headers`, from index `i` on. -/
def findColumnsFrom : List String → Int → Columns → Columns
  | [], _, c => c
  | h :: rest, i, c => findColumnsFrom rest (i + 1) (columnStep c i h)

/-- Column discovery: all four indices start at `-1`. -/
def findColumns (headers : List String) : Columns :=
  findColumnsFrom headers 0 ⟨-1, -1, -1, -1⟩

/-! ## Date resolution and aggregation -/

/-- The slice index expression `row[i]`: `none` is the index-out-of-range panic. -/
def cellAt (row : List String) (i : Int) : Option String :=
  if i < 0 then none else row[i.toNat]?

/-- The date loop over the rows below the header. -/
def extractDate (dateIdx : Int) : List (List String) → Outcome String
  | [] => .ok "неизвестна"
  | row :: rest =>
    if dateIdx < (row.length : Int) then
      match cellAt row dateIdx with
      | none => .panic
      | some cell => if cell ≠ "" then .ok cell else extractDate dateIdx rest
    else extractDate dateIdx rest

/-- Reading one numeric cell: `x := 0.0; if idx < len(row) && row[idx] != "" { Sscanf }`. -/
def scanCell (sscanf : String → Option Float64) (idx : Int) (row : List String) : Outcome Float64 :=
  if idx < (row.length : Int) then
    match cellAt row idx with
    | none => .panic
    | some cell => if cell ≠ "" then .ok ((sscanf cell).getD 0) else .ok 0
  else .ok 0

/-- The map update at the end of the loop body.  The map `itemsMap` is the list of its
entries in order of first insertion: a name not yet present gets a fresh zero entry, then
the entry of that name is increased by the row's quantity and amount. -/
def addRow (m : List Item) (name : String) (quantity sum : Float64) : List Item :=
  let m1 :=
    if m.any (fun it => it.Name = name) then m
    else m ++ [{ Name := name, Quantity := 0, Sum := 0, IsPriority := isPriority name }]
  m1.map (fun it =>
    if it.Name = name then
      { it with Quantity := it.Quantity + quantity, Sum := it.Sum + sum }
    else it)

/-- The aggregation loop over the rows below the header. -/
def collectRows (sscanf : String → Option Float64) (c : Columns) :
    List (List String) → List Item → Outcome (List Item)
  | [], m => .ok m
  | row :: rest, m =>
    if (row.length : Int) ≤ c.nameIdx then collectRows sscanf c rest m
    else
      match cellAt row c.nameIdx with
      | none => .panic
      | some name =>
        if name = "" then collectRows sscanf c rest m
        else if strContains name "Punga" then collectRows sscanf c rest m
        else
          (scanCell sscanf c.qtyIdx row).bind fun quantity =>
          (scanCell sscanf c.sumIdx row).bind fun sum =>
          collectRows sscanf c rest (addRow m name quantity sum)

/-! ## Ranking -/

/-- The exchange `items[i], items[j] = items[j], items[i]`. -/
def swapAt (items : List Item) (i j : Nat) : List Item :=
  match items[i]?, items[j]? with
  | some a, some b => (items.set i b).set j a
  | _, _ => items

/-- The body of the inner loop of `sortItems` at the index pair `i`, `j`. -/
def sortStep (i : Nat) (items : List Item) (j : Nat) : List Item :=
  match items[i]?, items[j]? with
  | some a, some b =>
    if a.IsPriority = b.IsPriority then
      if a.Sum < b.Sum then swapAt items i j else items
    else if !a.IsPriority && b.IsPriority then swapAt items i j
    else items
  | _, _ => items

/-- The inner loop `for j := i + 1; j < len(items); j++`. -/
def sortInner (n : Nat) (items : List Item) (i : Nat) : List Item :=
  (List.range' (i + 1) (n - (i + 1))).foldl (sortStep i) items

/-- The function `func sortItems(items []Item)`: the outer loop
`for i := 0; i < len(items); i++`.
The slice is sorted in place; the model returns its final contents. -/
def sortItems (items : List Item) : List Item :=
  (List.range items.length).foldl (sortInner items.length) items

/-! ## Report text -/

/-- The verb `%-40s`: the string, padded on the right with spaces up to 40 code points. -/
def padRight40 (s : String) : String :=
  s ++ String.mk (List.replicate (40 - s.length) ' ')

/-- The verb `%.2f` on a finite value: sign, integer part and two decimals of the value
rounded to hundredths, ties to even. -/
def fixed2Rat (x : ℚ) : String :=
  let n := roundHalfEven (|x| * 100)
  let frac := n % 100
  (if x < 0 then "-" else "") ++
    (toString (n / 100) ++ "." ++ (if frac < 10 then "0" else "") ++ toString frac)

/-- The verb `%.2f` without a width: the text that `fmtFloat` pads to 10 characters. -/
def fixed2 : Float64 → String
  | .fin q => fixed2Rat q
  | .posInf => "+Inf"
  | .negInf => "-Inf"
  | .nan => "NaN"

/-- The verb `%10.2f`: two decimals, padded on the left with spaces up to 10 characters. -/
def fmtFloat (x : Float64) : String :=
  String.mk (List.replicate (10 - (fixed2 x).length) ' ') ++ fixed2 x

/-- One body line, `fmt.Sprintf("%-40s %10.2f %10.2f\n", ...)`. -/
def renderLine (item : Item) : String :=
  padRight40 item.Name ++ " " ++ fmtFloat item.Quantity ++ " " ++ fmtFloat item.Sum ++ "\n"

/-- The head of the text, `fmt.Sprintf("📅 Дата отчёта: %s\n\n📊 Отчёт по продажам:\n\n", ...)`. -/
def renderHead (reportDate : String) : String :=
  "📅 Дата отчёта: " ++ reportDate ++ "\n\n📊 Отчёт по продажам:\n\n"

/-- The body loop `for i, item := range items` with its `if i >= 30 { break }`, from
index `i` on, threading `totalSum` and `text`. -/
def renderLoop : List Item → Nat → Float64 × String → Float64 × String
  | [], _, acc => acc
  | item :: rest, i, acc =>
    if i ≥ 30 then acc
    else renderLoop rest (i + 1) (acc.1 + item.Sum, acc.2 ++ renderLine item)

/-- The overflow notice for `k` items beyond the displayed ones. -/
def overflowNotice (k : Nat) : String :=
  "\n... и ещё " ++ toString k ++ " позиций. Полный отчёт — в файле."

/-- The text and total built from the ranked items and the report date. -/
def render (reportDate : String) (items : List Item) : Float64 × String :=
  let r := renderLoop items 0 (0, renderHead reportDate)
  if items.length > 30 then (r.1, r.2 ++ overflowNotice (items.length - 30)) else r

/-! ## The analysis core -/

/-- Message of the error returned when no header row is found. -/
def errNoHeader : String := "❌ не найдены заголовки"

/-- Message of the error returned when a mandatory column is missing. -/
def errNoColumns : String := "❌ отсутствуют необходимые столбцы"

/-- The body of `analyzeExcel` from the decoded rows on. -/
def analyzeExcel (rt : Runtime) (rows : List (List String)) : Outcome AnalysisResult :=
  match findHeader rows 0 with
  | none => .error errNoHeader
  | some (headerRow, headers) =>
    let c := findColumns headers
    if c.nameIdx = -1 ∨ c.qtyIdx = -1 ∨ c.sumIdx = -1 then .error errNoColumns
    else
      let below := rows.drop (headerRow + 1)
      (extractDate c.dateIdx below).bind fun reportDate =>
      (collectRows rt.sscanf c below []).bind fun itemsMap =>
      let items := sortItems (rt.mapRange itemsMap)
      let r := render reportDate items
      .ok { ReportDate := reportDate, Text := r.2, Items := items, TotalSum := r.1 }

/-! ## Sample runtime and sheets -/

/-- The number a list of decimal digit characters denotes. -/
def digitsValue (l : List Char) : Nat :=
  l.foldl (fun a c => 10 * a + (c.toNat - 48)) 0

/-- A scanner for plain unsigned decimal integers, enough for the sample sheets: the
`float64` nearest to the value of a non-empty run of digits, and failure on anything
else. -/
def scanDigits (s : String) : Option Float64 :=
  if s.data ≠ [] ∧ s.data.all Char.isDigit then
    some (Float64.ofRat (digitsValue s.data))
  else none

/-- A runtime whose map iteration follows insertion order. -/
def rtInsertion : Runtime := ⟨scanDigits, id⟩

/-- A runtime whose map iteration is the reverse of insertion order. -/
def rtReverse : Runtime := ⟨scanDigits, List.reverse⟩

/-- A header row without a date column, followed by one data row. -/
def sheetNoDate : List (List String) :=
  [ ["Denumire marfa", "Cantitate", "Suma cu TVA fără reducere"],
    ["Latte", "2", "50"] ]

/-- A sheet with a date column, two rows of the same name and an excluded row. -/
def sheetDated : List (List String) :=
  [ ["Raport"],
    ["Denumire marfa", "Cantitate", "Suma cu TVA fără reducere", "Data"],
    ["Latte", "2", "50", "01.02.2024"],
    ["Tea", "abc", "7"],
    ["Latte", "1", "25"],
    ["Punga cadou", "1", "2"],
    [],
    ["Cookie", "3"] ]

/-! ## Ranking, seen on the list

The inner loop of `sortItems` keeps a candidate at position `i` and walks the rest of the
slice, exchanging the candidate with every element that must come before it.  The
functions below present that walk by recursion on the list; `sortItems_eq_sortRec` shows
that they compute what the index loops compute. -/

/-- The exchange test of `sortItems` on the pair `items[i] = a`, `items[j] = b`. -/
def outOfOrder (a b : Item) : Bool :=
  if a.IsPriority = b.IsPriority then decide (a.Sum < b.Sum)
  else !a.IsPriority && b.IsPriority

/-- One run of the inner loop with candidate `x` over the elements after it: the element
left at position `i`, and the elements left after it. -/
def carry (x : Item) : List Item → Item × List Item
  | [] => (x, [])
  | y :: ys =>
    if outOfOrder x y then ((carry y ys).1, x :: (carry y ys).2)
    else ((carry x ys).1, y :: (carry x ys).2)

/-- The outer loop on the list, `n` positions still to fill. -/
def sortRec : Nat → List Item → List Item
  | 0, l => l
  | _ + 1, [] => []
  | n + 1, x :: xs => (carry x xs).1 :: sortRec n (carry x xs).2

/-- The exchange test on ranking keys (priority flag, sum). -/
def keyOut (k1 k2 : Bool × Float64) : Bool :=
  if k1.1 = k2.1 then decide (k1.2 < k2.2) else !k1.1 && k2.1

/-- The ranking key of an item: its priority flag and its sum. -/
def rankKey (a : Item) : Bool × Float64 := (a.IsPriority, a.Sum)

/-- The ranked condition on a pair of items at positions `i < j`: no priority item after
a non-priority one, and within one tier sums do not increase. -/
def RankedPair (a b : Item) : Prop :=
  ¬ (b.IsPriority = true ∧ a.IsPriority = false) ∧
    (a.IsPriority = b.IsPriority → a.Sum ≥ b.Sum)

/-- Two grouped items with different names, the same tier and the same sum. -/
def itemTieA : Item := { Name := "Cookie", Quantity := 1, Sum := 10, IsPriority := false }

/-- The second item of the tie. -/
def itemTieB : Item := { Name := "Muffin", Quantity := 2, Sum := 10, IsPriority := false }

/-- A third item of the same tier with a larger sum. -/
def itemTieC : Item := { Name := "Bagel", Quantity := 1, Sum := 20, IsPriority := false }

/-- A small unranked collection: a non-priority item, then two priority items with
increasing sums. -/
def itemsUnranked : List Item :=
  [ { Name := "Cookie", Quantity := 1, Sum := 90, IsPriority := false },
    { Name := "Tea", Quantity := 1, Sum := 5, IsPriority := true },
    { Name := "Latte", Quantity := 3, Sum := 75, IsPriority := true } ]

/-! ## Aggregation, row by row

The notions the statements about aggregation are phrased in: which rows survive
filtering, the name of a row, and the number a numeric cell contributes. -/

/-- A row survives filtering: it has a name cell, the name is not empty and does not
contain "Punga". -/
def surviving (nameIdx : Nat) (row : List String) : Bool :=
  match row[nameIdx]? with
  | none => false
  | some name => decide (name ≠ "") && !strContains name "Punga"

/-- The name cell of a row (empty when the row is too short). -/
def rowName (nameIdx : Nat) (row : List String) : String :=
  (row[nameIdx]?).getD ""

/-- The number a numeric column of a row contributes: `0` when the cell is missing, empty,
or not accepted by the scanner, and the scanned value otherwise. -/
def parsedCell (sscanf : String → Option Float64) (idx : Nat) (row : List String) : Float64 :=
  match row[idx]? with
  | none => 0
  | some cell => if cell = "" then 0 else (sscanf cell).getD 0

/-- The effect of one row on the map: surviving rows are added, the others change
nothing. -/
def foldRow (sscanf : String → Option Float64) (nameIdx qtyIdx sumIdx : Nat) (m : List Item)
    (row : List String) : List Item :=
  if surviving nameIdx row then
    addRow m (rowName nameIdx row) (parsedCell sscanf qtyIdx row) (parsedCell sscanf sumIdx row)
  else m

/-- The map lookup `itemsMap[name]`. -/
def lookup (m : List Item) (name : String) : Option Item :=
  m.find? (fun it => it.Name = name)

/-- The sum recorded for a name (`0` when the map has no entry for it). -/
def sumAt (m : List Item) (name : String) : Float64 :=
  match lookup m name with
  | none => 0
  | some it => it.Sum

/-- The quantity recorded for a name (`0` when the map has no entry for it). -/
def quantityAt (m : List Item) (name : String) : Float64 :=
  match lookup m name with
  | none => 0
  | some it => it.Quantity

/-- The increment `itemsMap[name].Quantity += quantity; itemsMap[name].Sum += sum` as it
acts on one entry of the map. -/
def bump (name : String) (quantity sum : Float64) (it : Item) : Item :=
  if it.Name = name then
    { it with Quantity := it.Quantity + quantity, Sum := it.Sum + sum }
  else it

/-- The entry created on the first occurrence of a name. -/
def freshItem (name : String) : Item :=
  { Name := name, Quantity := 0, Sum := 0, IsPriority := isPriority name }

/-- The name a row carries, read in the name column found in `header`. -/
def nameOf (header row : List String) : String :=
  rowName (findColumns header).nameIdx.toNat row

/-- The amount a row contributes, read in the amount column found in `header`. -/
def amountOf (rt : Runtime) (header row : List String) : Float64 :=
  parsedCell rt.sscanf (findColumns header).sumIdx.toNat row

/-- The quantity a row contributes, read in the quantity column found in `header`. -/
def quantityOf (rt : Runtime) (header row : List String) : Float64 :=
  parsedCell rt.sscanf (findColumns header).qtyIdx.toNat row

/-- The rows among `below` that survive filtering, for the name column found in
`header`. -/
def survivors (header : List String) (below : List (List String)) : List (List String) :=
  below.filter (surviving (findColumns header).nameIdx.toNat)

/-- A numeric cell that contributes nothing: missing, empty, or rejected by the scanner. -/
def BadCell (sscanf : String → Option Float64) (idx : Nat) (row : List String) : Prop :=
  row[idx]? = none ∨ row[idx]? = some "" ∨ ∃ cell, row[idx]? = some cell ∧ sscanf cell = none

/-- The result of the run on `sheetDated` with map iteration in insertion order. -/
def resultDated : AnalysisResult :=
  { ReportDate := "01.02.2024",
    Text := "📅 Дата отчёта: 01.02.2024\n\n📊 Отчёт по продажам:\n\n" ++
      "Latte                                          3.00      75.00\n" ++
      "Tea                                            0.00       7.00\n" ++
      "Cookie                                         3.00       0.00\n",
    Items := [⟨"Latte", 3, 75, true⟩, ⟨"Tea", 0, 7, true⟩, ⟨"Cookie", 3, 0, false⟩],
    TotalSum := 82 }

/-- A sheet whose data rows carry names that differ only in letter case or in
surrounding white space. -/
def sheetCase : List (List String) :=
  [ ["Denumire marfa", "Cantitate", "Suma cu TVA fără reducere", "Data"],
    ["Latte", "2", "50", "03.04.2024"],
    ["latte", "1", "25"],
    [" Latte", "1", "20"] ]

/-- The result of the run on `sheetCase`, whatever the order of map iteration. -/
def resultCase : AnalysisResult :=
  { ReportDate := "03.04.2024",
    Text := "📅 Дата отчёта: 03.04.2024\n\n📊 Отчёт по продажам:\n\n" ++
      "Latte                                          2.00      50.00\n" ++
      "latte                                          1.00      25.00\n" ++
      " Latte                                         1.00      20.00\n",
    Items := [⟨"Latte", 2, 50, true⟩, ⟨"latte", 1, 25, true⟩, ⟨" Latte", 1, 20, true⟩],
    TotalSum := 95 }

/-- The body lines of a list of items, one after the other. -/
def renderBody : List Item → String
  | [] => ""
  | item :: rest => renderLine item ++ renderBody rest

/-- The characters of the overflow notice before the number. -/
def noticeHead : List Char := "\n... и ещё ".data

/-- The characters of the overflow notice after the number. -/
def noticeTail : List Char := " позиций. Полный отчёт — в файле.".data

/-- A sheet with a date column, no date cell, and 31 data rows "P0" ... "P30" with the
amounts 1 ... 31. -/
def sheetLong : List (List String) :=
  ["Denumire marfa", "Cantitate", "Suma cu TVA fără reducere", "Data"] ::
    (List.range 31).map (fun i => ["P" ++ toString i, "1", toString (i + 1)])

/-- The ranked items of the run on `sheetLong`: "P30" (sum 31) down to "P0" (sum 1). -/
def itemsLong : List Item :=
  (List.range 31).map (fun i => ⟨"P" ++ toString (30 - i), 1, .fin ((31 - i : Nat) : ℚ), false⟩)

/-- The result of the run on `sheetLong` with map iteration in insertion order: thirty
body lines, the notice for one more item, and the total of the thirty displayed sums. -/
def resultLong : AnalysisResult :=
  { ReportDate := "неизвестна",
    Text := renderHead "неизвестна" ++ renderBody (itemsLong.take 30) ++ overflowNotice 1,
    Items := itemsLong,
    TotalSum := 495 }

/-- The list form of `strings.TrimSpace`. -/
def trimList (l : List Char) : List Char :=
  ((l.dropWhile isSpace).reverse.dropWhile isSpace).reverse

/-- A scanner for plain decimal integers with an optional minus sign: "-5" scans as -5,
as it does under the verb `%f`. -/
def scanSigned (s : String) : Option Float64 :=
  match s.data with
  | '-' :: ds =>
    if ds ≠ [] ∧ ds.all Char.isDigit then some (Float64.ofRat (-(digitsValue ds : ℚ))) else none
  | ds => if ds ≠ [] ∧ ds.all Char.isDigit then some (Float64.ofRat (digitsValue ds)) else none

/-- The date the claim on date resolution describes: the date cell of the first row that
is long enough to have one and whose date cell is not empty, and the sentinel when there
is no such row. -/
def firstDated (dateIdx : Nat) (below : List (List String)) : String :=
  match below.find? (fun row => decide (dateIdx < row.length) && decide (row.getD dateIdx "" ≠ "")) with
  | some row => row.getD dateIdx ""
  | none => "неизвестна"

/-- A sheet whose first data row is too short for the date column and is excluded from
the items, whose second has an empty date cell, and whose third carries the date. -/
def sheetDates : List (List String) :=
  [ ["Denumire marfa", "Cantitate", "Data", "Suma cu TVA fără reducere"],
    ["Punga", "1"],
    ["Tea", "1", "", "5"],
    ["", "", "05.06.2024", ""],
    ["Latte", "1", "06.06.2024", "20"] ]

/-- A name of 45 characters. -/
def longName : String := "Double cappuccino decaffeinated with oat milk"

/-- A sheet with one data row whose name has more than 40 characters. -/
def sheetLongName : List (List String) :=
  [ ["Denumire marfa", "Cantitate", "Suma cu TVA fără reducere", "Data"],
    [longName, "1", "2", "07.08.2024"] ]

/-- The result of the run on `sheetLongName`: the body line carries the whole name. -/
def resultLongName : AnalysisResult :=
  { ReportDate := "07.08.2024",
    Text := "📅 Дата отчёта: 07.08.2024\n\n📊 Отчёт по продажам:\n\n" ++
      "Double cappuccino decaffeinated with oat milk       1.00       2.00\n",
    Items := [⟨longName, 1, 2, false⟩],
    TotalSum := 2 }

/-- The sheet of the example scenario. -/
def sheetExample : List (List String) :=
  [ ["Denumire marfa", "Cantitate", "Suma cu TVA fără reducere", "Data"],
    ["Latte", "2", "50"],
    ["latte", "1", "25"],
    ["Punga cadou", "1", "2"] ]

/-! ## The chat handler (`main.go`)

The part of `handleUpdate` that answers an authorised text message, and the step that
delivers the text of a finished analysis.  What `bot.Send` is called with is returned as
a value. -/

/-- A stored report, `type Report struct`. -/
structure Report where
  Date : String
  Text : String
  TotalSum : Float64
  Timestamp : String
deriving DecidableEq

/-- A message handed to `bot.Send`: its text and the labels of its reply-keyboard buttons
(no labels for a message without keyboard). -/
structure Sent where
  text : String
  buttons : List String
deriving DecidableEq

/-- Text of the notice sent in place of a long report. -/
def tooLongNotice : String := "Отчёт слишком длинный. Отправляю файл."

/-- The delivery step after a successful analysis: the text handed to `bot.Send`.  Go's
`len(result.Text)` is the length of the text in bytes (UTF-8). -/
def deliverText (text : String) : String :=
  if text.utf8ByteSize < 4000 then text else tooLongNotice

/-- The label of the history button for the report at index `i` of `reports`,
`fmt.Sprintf("%d. %s - %.2f лей", i+1, report.Date, report.TotalSum)`. -/
def buttonLabel (i : Nat) (report : Report) : String :=
  toString (i + 1) ++ ". " ++ report.Date ++ " - " ++ fixed2 report.TotalSum ++ " лей"

/-- The loop building the history buttons, from index `i` on. -/
def historyButtonsFrom : List Report → Nat → List String
  | [], _ => []
  | report :: rest, i => buttonLabel i report :: historyButtonsFrom rest (i + 1)

/-- The function `strings.HasPrefix(s, p)`. -/
def hasPrefix (s p : String) : Bool :=
  decide (p.data <+: s.data)

/-- The condition of the selection branch: the text starts with one of "1." ... "9.". -/
def isSelection (text : String) : Bool :=
  hasPrefix text "1." || hasPrefix text "2." || hasPrefix text "3." || hasPrefix text "4." ||
    hasPrefix text "5." || hasPrefix text "6." || hasPrefix text "7." || hasPrefix text "8." ||
    hasPrefix text "9."

/-- The first element of `strings.Split(text, ".")`: the text before the first dot. -/
def firstPart (text : String) : String :=
  String.mk (text.data.takeWhile (fun c => decide (c ≠ '.')))

/-- The function `strconv.Atoi`: an optional sign followed by at least one decimal digit,
within the range of a 64-bit integer; `none` is the error result. -/
def atoi (s : String) : Option Int :=
  let body := match s.data with
    | '+' :: ds => ds
    | '-' :: ds => ds
    | ds => ds
  if body ≠ [] ∧ body.all Char.isDigit then
    let v : Int := if s.data.head? = some '-' then -(digitsValue body : Int) else digitsValue body
    if -(2 ^ 63 : Int) ≤ v ∧ v < 2 ^ 63 then some v else none
  else none

/-- The selection branch of `handleUpdate`: the report text to send, or `none` when the
branch is not taken or falls through. -/
def selectReport (reports : List Report) (text : String) : Option String :=
  if isSelection text then
    match atoi (firstPart text) with
    | some idx =>
      if idx > 0 ∧ idx ≤ (reports.length : Int) then
        (reports[(idx - 1).toNat]?).map Report.Text
      else none
    | none => none
  else none

/-- The messages `handleUpdate` sends for an authorised message that carries the text
`text` and no document. -/
def handleUpdate (reports : List Report) (text : String) : List Sent :=
  if text = "/start" then
    [⟨"Выберите действие:", ["📊 Анализировать новый файл", "📁 Посмотреть историю отчётов"]⟩]
  else if text = "📊 Анализировать новый файл" then
    [⟨"Отправьте Excel-файл (.xlsx)", []⟩]
  else if text = "📁 Посмотреть историю отчётов" then
    if reports.length = 0 then [⟨"Нет сохранённых отчётов.", []⟩]
    else [⟨"Выберите отчёт:", historyButtonsFrom reports 0⟩]
  else
    match selectReport reports text with
    | some reportText => [⟨reportText, []⟩]
    | none => []

/-- A text of 4000 one-byte characters. -/
def text4000 : String := String.mk (List.replicate 4000 'a')

/-- A text of 2000 Cyrillic characters, two bytes each. -/
def textCyrillic : String := String.mk (List.replicate 2000 'я')

/-- A sheet with a date column, no date cell, and 30 data rows whose names are 60 Cyrillic
characters followed by the row number, with the amounts 1 ... 30. -/
def sheetCyrillic : List (List String) :=
  ["Denumire marfa", "Cantitate", "Suma cu TVA fără reducere", "Data"] ::
    (List.range 30).map (fun i =>
      [String.mk (List.replicate 60 'я') ++ toString i, "1", toString (i + 1)])

/-- The ranked items of the run on `sheetCyrillic`: amounts 30 down to 1. -/
def itemsCyrillic : List Item :=
  (List.range 30).map (fun i =>
    ⟨String.mk (List.replicate 60 'я') ++ toString (29 - i), 1, .fin ((30 - i : Nat) : ℚ), false⟩)

/-- The result of the run on `sheetCyrillic` with map iteration in insertion order. -/
def resultCyrillic : AnalysisResult :=
  { ReportDate := "неизвестна",
    Text := renderHead "неизвестна" ++ renderBody itemsCyrillic,
    Items := itemsCyrillic,
    TotalSum := 465 }

/-- Two stored reports. -/
def reportsTwo : List Report :=
  [ ⟨"01.02.2024", "first report", 82, "2024-02-01T10:00:00Z"⟩,
    ⟨"03.04.2024", "second report", 95, "2024-04-03T10:00:00Z"⟩ ]

/-- The `float64` total of a list of numbers as a loop `total += x` computes it:
accumulated from `0.0` in list order. -/
def sumInOrder (l : List Float64) : Float64 :=
  l.foldl (· + ·) 0

/-- The number a finite `float64` value is (and `0` for an infinity or NaN). -/
def Float64.toRat : Float64 → ℚ
  | .fin q => q
  | _ => 0

/-- The total of a list of finite `float64` values in exact arithmetic, free of
rounding. -/
def exactSum (l : List Float64) : ℚ :=
  (l.map Float64.toRat).sum

/-- A sheet on which rounding shows: the amounts 2^53 and 1 under one name, then 1 and 1
under another. -/
def sheetRounding : List (List String) :=
  [ ["Denumire marfa", "Cantitate", "Suma cu TVA fără reducere", "Data"],
    ["Alpha", "1", "9007199254740992"],
    ["Alpha", "1", "1"],
    ["Beta", "1", "1"],
    ["Beta", "1", "1"] ]

/-- The ranked items of the run on `sheetRounding`. -/
def itemsRounding : List Item :=
  [⟨"Alpha", 2, 9007199254740992, false⟩, ⟨"Beta", 2, 2, false⟩]

/-- The result of the run on `sheetRounding` with map iteration in insertion order. -/
def resultRounding : AnalysisResult :=
  { ReportDate := "неизвестна",
    Text := renderHead "неизвестна" ++ renderBody itemsRounding,
    Items := itemsRounding,
    TotalSum := 9007199254740994 }

/-- A sheet with a date column, no date cell, and 31 data rows "P0" ... "P30": the amount
2^53 in the first, 3 in the next fifteen, and 1 in the last fifteen. -/
def sheetAbsorb : List (List String) :=
  ["Denumire marfa", "Cantitate", "Suma cu TVA fără reducere", "Data"] ::
    (List.range 31).map (fun i =>
      ["P" ++ toString i, "1", if i = 0 then "9007199254740992" else if i ≤ 15 then "3" else "1"])

/-- The ranked items of the run on `sheetAbsorb`: the items in the order of their rows. -/
def itemsAbsorb : List Item :=
  (List.range 31).map (fun i =>
    ⟨"P" ++ toString i, 1, if i = 0 then 9007199254740992 else if i ≤ 15 then 3 else 1, false⟩)

/-- The result of the run on `sheetAbsorb` with map iteration in insertion order. -/
def resultAbsorb : AnalysisResult :=
  { ReportDate := "неизвестна",
    Text := renderHead "неизвестна" ++ renderBody (itemsAbsorb.take 30) ++ overflowNotice 1,
    Items := itemsAbsorb,
    TotalSum := 9007199254741052 }

/-! ## Outcomes of the stages -/

theorem Outcome.bind_eq_ok {α β : Type} {x : Outcome α} {f : α → Outcome β} {b : β}
    (h : x.bind f = .ok b) : ∃ a, x = .ok a ∧ f a = .ok b := by
  cases x with
  | ok a => exact ⟨a, rfl, h⟩
  | error msg => simp [Outcome.bind] at h
  | panic => simp [Outcome.bind] at h

theorem Outcome.bind_eq_error {α β : Type} {x : Outcome α} {f : α → Outcome β} {msg : String}
    (h : x.bind f = .error msg) : x = .error msg ∨ ∃ a, x = .ok a ∧ f a = .error msg := by
  cases x with
  | ok a => exact Or.inr ⟨a, rfl, h⟩
  | error m => left; simpa [Outcome.bind] using h
  | panic => simp [Outcome.bind] at h

theorem extractDate_ne_error (dateIdx : Int) (rows : List (List String)) (msg : String) :
    extractDate dateIdx rows ≠ .error msg := by
  induction rows with
  | nil => simp [extractDate]
  | cons row rest ih =>
    unfold extractDate
    split_ifs with h1
    · cases hc : cellAt row dateIdx with
      | none => simp
      | some cell =>
        by_cases h2 : cell = ""
        · simpa [h2] using ih
        · simp [h2]
    · exact ih

theorem scanCell_ne_error (sscanf : String → Option Float64) (idx : Int) (row : List String)
    (msg : String) : scanCell sscanf idx row ≠ .error msg := by
  unfold scanCell
  split_ifs with h1
  · cases hc : cellAt row idx with
    | none => simp
    | some cell => by_cases h2 : cell = "" <;> simp [h2]
  · simp

theorem collectRows_ne_error (sscanf : String → Option Float64) (c : Columns)
    (rows : List (List String)) (m : List Item) (msg : String) :
    collectRows sscanf c rows m ≠ .error msg := by
  induction rows generalizing m with
  | nil => simp [collectRows]
  | cons row rest ih =>
    unfold collectRows
    split_ifs with h1
    · exact ih m
    · cases hc : cellAt row c.nameIdx with
      | none => simp
      | some name =>
        simp only
        split_ifs with h2 h3
        · exact ih m
        · exact ih m
        · intro h
          rcases Outcome.bind_eq_error h with h | ⟨q, -, h⟩
          · exact scanCell_ne_error _ _ _ _ h
          · rcases Outcome.bind_eq_error h with h | ⟨s, -, h⟩
            · exact scanCell_ne_error _ _ _ _ h
            · exact ih _ h

/-! ## Header and column discovery: lemmas -/

theorem isHeaderRow_iff (row : List String) :
    isHeaderRow row = true ↔ ∃ cell ∈ row, "Denumire marfa".data <:+: cell.data := by
  simp [isHeaderRow, strContains]

theorem findHeader_eq_none_iff (rows : List (List String)) (i : Nat) :
    findHeader rows i = none ↔ ∀ row ∈ rows, isHeaderRow row = false := by
  induction rows generalizing i with
  | nil => simp [findHeader]
  | cons row rest ih =>
    unfold findHeader
    by_cases h : isHeaderRow row = true
    · simp [h]
    · simp [h, ih]

theorem findHeader_append (pre : List (List String)) (header : List String)
    (post : List (List String)) (i : Nat)
    (hpre : ∀ row ∈ pre, isHeaderRow row = false) (hh : isHeaderRow header = true) :
    findHeader (pre ++ header :: post) i = some (i + pre.length, header) := by
  induction pre generalizing i with
  | nil => simp [findHeader, hh]
  | cons row rest ih =>
    have h1 : isHeaderRow row = false := hpre row (List.mem_cons_self _ _)
    have h2 : ∀ r ∈ rest, isHeaderRow r = false :=
      fun r hr => hpre r (List.mem_cons_of_mem _ hr)
    have e : i + 1 + rest.length = i + (rest.length + 1) := by omega
    rw [List.cons_append, findHeader, h1, if_neg Bool.false_ne_true, ih (i + 1) h2,
      List.length_cons, e]

theorem findColumnsFrom_nameIdx (l : List String) (i : Int) (c : Columns) (hi : 0 ≤ i) :
    (findColumnsFrom l i c).nameIdx = -1 ↔ c.nameIdx = -1 ∧ "Denumire marfa" ∉ l := by
  induction l generalizing i c with
  | nil => simp [findColumnsFrom]
  | cons h rest ih =>
    rw [findColumnsFrom, ih (i + 1) _ (by omega)]
    unfold columnStep
    by_cases h1 : h = "Denumire marfa"
    · subst h1
      simp only [if_true, List.mem_cons, true_or, not_true_eq_false, and_false, iff_false,
        not_and]
      intro h2
      omega
    · have h1b : ¬ "Denumire marfa" = h := fun e => h1 e.symm
      split_ifs <;> simp [h1b]

theorem findColumnsFrom_qtyIdx (l : List String) (i : Int) (c : Columns) (hi : 0 ≤ i) :
    (findColumnsFrom l i c).qtyIdx = -1 ↔ c.qtyIdx = -1 ∧ "Cantitate" ∉ l := by
  induction l generalizing i c with
  | nil => simp [findColumnsFrom]
  | cons h rest ih =>
    rw [findColumnsFrom, ih (i + 1) _ (by omega)]
    unfold columnStep
    by_cases h1 : h = "Cantitate"
    · subst h1
      simp only [List.mem_cons, true_or, not_true_eq_false, and_false, iff_false, not_and]
      intro h2
      have h3 : i = -1 := h2
      omega
    · have h1b : ¬ "Cantitate" = h := fun e => h1 e.symm
      split_ifs <;> simp [h1b]

theorem findColumnsFrom_sumIdx (l : List String) (i : Int) (c : Columns) (hi : 0 ≤ i) :
    (findColumnsFrom l i c).sumIdx = -1 ↔ c.sumIdx = -1 ∧ "Suma cu TVA fără reducere" ∉ l := by
  induction l generalizing i c with
  | nil => simp [findColumnsFrom]
  | cons h rest ih =>
    rw [findColumnsFrom, ih (i + 1) _ (by omega)]
    unfold columnStep
    by_cases h1 : h = "Suma cu TVA fără reducere"
    · subst h1
      simp only [List.mem_cons, true_or, not_true_eq_false, and_false, iff_false, not_and]
      intro h2
      have h3 : i = -1 := h2
      omega
    · have h1b : ¬ "Suma cu TVA fără reducere" = h := fun e => h1 e.symm
      split_ifs <;> simp [h1b]

theorem findColumnsFrom_dateIdx (l : List String) (i : Int) (c : Columns) (hi : 0 ≤ i) :
    (findColumnsFrom l i c).dateIdx = -1 ↔ c.dateIdx = -1 ∧ "Data" ∉ l := by
  induction l generalizing i c with
  | nil => simp [findColumnsFrom]
  | cons h rest ih =>
    rw [findColumnsFrom, ih (i + 1) _ (by omega)]
    unfold columnStep
    by_cases h1 : h = "Data"
    · subst h1
      simp only [List.mem_cons, true_or, not_true_eq_false, and_false, iff_false, not_and]
      intro h2
      have h3 : i = -1 := h2
      omega
    · have h1b : ¬ "Data" = h := fun e => h1 e.symm
      split_ifs <;> simp [h1b]

theorem findColumns_nameIdx (headers : List String) :
    (findColumns headers).nameIdx = -1 ↔ "Denumire marfa" ∉ headers := by
  simp [findColumns, findColumnsFrom_nameIdx]

theorem findColumns_qtyIdx (headers : List String) :
    (findColumns headers).qtyIdx = -1 ↔ "Cantitate" ∉ headers := by
  simp [findColumns, findColumnsFrom_qtyIdx]

theorem findColumns_sumIdx (headers : List String) :
    (findColumns headers).sumIdx = -1 ↔ "Suma cu TVA fără reducere" ∉ headers := by
  simp [findColumns, findColumnsFrom_sumIdx]

theorem findColumns_dateIdx (headers : List String) :
    (findColumns headers).dateIdx = -1 ↔ "Data" ∉ headers := by
  simp [findColumns, findColumnsFrom_dateIdx]

/-- The shape of a run once the header row is known. -/
theorem analyzeExcel_of_header (rt : Runtime) (rows : List (List String)) (headerRow : Nat)
    (headers : List String) (h : findHeader rows 0 = some (headerRow, headers)) :
    analyzeExcel rt rows =
      if (findColumns headers).nameIdx = -1 ∨ (findColumns headers).qtyIdx = -1 ∨
          (findColumns headers).sumIdx = -1 then .error errNoColumns
      else
        (extractDate (findColumns headers).dateIdx (rows.drop (headerRow + 1))).bind
          fun reportDate =>
        (collectRows rt.sscanf (findColumns headers) (rows.drop (headerRow + 1)) []).bind
          fun itemsMap =>
        .ok { ReportDate := reportDate,
              Text := (render reportDate (sortItems (rt.mapRange itemsMap))).2,
              Items := sortItems (rt.mapRange itemsMap),
              TotalSum := (render reportDate (sortItems (rt.mapRange itemsMap))).1 } := by
  simp only [analyzeExcel, h]

/-- Past column discovery a run never ends in an error value. -/
theorem analyzeExcel_error_cases (rt : Runtime) (rows : List (List String)) (msg : String)
    (h : analyzeExcel rt rows = .error msg) :
    (findHeader rows 0 = none ∧ msg = errNoHeader) ∨
    (∃ headerRow headers, findHeader rows 0 = some (headerRow, headers) ∧
      ((findColumns headers).nameIdx = -1 ∨ (findColumns headers).qtyIdx = -1 ∨
        (findColumns headers).sumIdx = -1) ∧ msg = errNoColumns) := by
  cases hf : findHeader rows 0 with
  | none =>
    left
    simp only [analyzeExcel, hf, Outcome.error.injEq] at h
    exact ⟨rfl, h.symm⟩
  | some p =>
    obtain ⟨headerRow, headers⟩ := p
    right
    refine ⟨headerRow, headers, rfl, ?_⟩
    rw [analyzeExcel_of_header rt rows headerRow headers hf] at h
    split_ifs at h with hc
    · simp only [Outcome.error.injEq] at h
      exact ⟨hc, h.symm⟩
    · exfalso
      rcases Outcome.bind_eq_error h with h | ⟨d, -, h⟩
      · exact extractDate_ne_error _ _ _ h
      · rcases Outcome.bind_eq_error h with h | ⟨m, -, h⟩
        · exact collectRows_ne_error _ _ _ _ _ h
        · simp at h

/-! ## Claims on header and column discovery -/

/-- C8: the analysis ends in the header-not-found error (no result, no panic) exactly when
no cell of any row of the sheet contains the substring "Denumire marfa"; this covers the
empty sheet and sheets with empty or ragged rows. -/
theorem analyzeExcel_noHeader_iff (rt : Runtime) (rows : List (List String)) :
    analyzeExcel rt rows = .error errNoHeader ↔
      ¬ ∃ row ∈ rows, ∃ cell ∈ row, "Denumire marfa".data <:+: cell.data := by
  constructor
  · intro h
    rcases analyzeExcel_error_cases rt rows _ h with ⟨hf, -⟩ | ⟨_, _, -, -, hmsg⟩
    · rintro ⟨row, hrow, hcell⟩
      have := (findHeader_eq_none_iff rows 0).1 hf row hrow
      rw [(isHeaderRow_iff row).2 hcell] at this
      exact Bool.noConfusion this
    · exact absurd hmsg (by decide)
  · intro h
    have hf : findHeader rows 0 = none := by
      rw [findHeader_eq_none_iff]
      intro row hrow
      by_contra hc
      have hc2 : isHeaderRow row = true := by simpa using hc
      exact h ⟨row, hrow, (isHeaderRow_iff row).1 hc2⟩
    simp only [analyzeExcel, hf]

/-- C9: when the first row with a cell containing "Denumire marfa" lacks a cell equal to
"Denumire marfa", "Cantitate" or "Suma cu TVA fără reducere", the analysis ends in the
missing-columns error whatever rows follow; that message differs from the header-not-found
message; and when all three cells are present the missing-columns error is not returned. -/
theorem analyzeExcel_missingColumns (rt : Runtime) (pre : List (List String))
    (header : List String) (post : List (List String))
    (hpre : ∀ row ∈ pre, ∀ cell ∈ row, ¬ "Denumire marfa".data <:+: cell.data)
    (hheader : ∃ cell ∈ header, "Denumire marfa".data <:+: cell.data) :
    (("Denumire marfa" ∉ header ∨ "Cantitate" ∉ header ∨
        "Suma cu TVA fără reducere" ∉ header) →
      analyzeExcel rt (pre ++ header :: post) = .error errNoColumns) ∧
    errNoColumns ≠ errNoHeader ∧
    (("Denumire marfa" ∈ header ∧ "Cantitate" ∈ header ∧
        "Suma cu TVA fără reducere" ∈ header) →
      analyzeExcel rt (pre ++ header :: post) ≠ .error errNoColumns) := by
  have hpre2 : ∀ row ∈ pre, isHeaderRow row = false := by
    intro row hrow
    by_contra hc
    have hc2 : isHeaderRow row = true := by simpa using hc
    obtain ⟨cell, hcell, hin⟩ := (isHeaderRow_iff row).1 hc2
    exact hpre row hrow cell hcell hin
  have hf := findHeader_append pre header post 0 hpre2 ((isHeaderRow_iff header).2 hheader)
  refine ⟨?_, by decide, ?_⟩
  · intro hmiss
    rw [analyzeExcel_of_header rt _ _ _ hf, if_pos]
    rw [findColumns_nameIdx, findColumns_qtyIdx, findColumns_sumIdx]
    exact hmiss
  · rintro ⟨h1, h2, h3⟩ h
    rcases analyzeExcel_error_cases rt _ _ h with ⟨hn, -⟩ | ⟨k, hs, hf2, hc, -⟩
    · rw [hf] at hn
      exact Option.noConfusion hn
    · rw [hf] at hf2
      obtain ⟨-, rfl⟩ := Prod.mk.inj (Option.some.inj hf2)
      rw [findColumns_nameIdx, findColumns_qtyIdx, findColumns_sumIdx] at hc
      tauto

/-- Witness for C9: a sheet with a title row above a header row that lacks the amount
column. -/
theorem analyzeExcel_missingColumns_witness :
    analyzeExcel rtInsertion ([["Raport"]] ++ ["Denumire marfa", "Cantitate"] :: [["Latte", "2"]])
        = .error errNoColumns ∧
      errNoColumns ≠ errNoHeader :=
  have h := analyzeExcel_missingColumns rtInsertion [["Raport"]] ["Denumire marfa", "Cantitate"]
    [["Latte", "2"]] (by decide) (by decide)
  ⟨h.1 (by decide), h.2.1⟩

/-! ## The absent date column -/

/-- With a date index of `-1` the date loop panics on the first row below the header. -/
theorem extractDate_neg_one (row : List String) (rest : List (List String)) :
    extractDate (-1) (row :: rest) = .panic := by
  have h : (-1 : Int) < (row.length : Int) := by omega
  simp [extractDate, h, cellAt]

/-- Every sheet whose header row has the three mandatory labels but no cell "Data", and
at least one row below it, makes the analysis panic. -/
theorem analyzeExcel_noDateColumn_panics (rt : Runtime) (pre : List (List String))
    (header row : List String) (post : List (List String))
    (hpre : ∀ r ∈ pre, isHeaderRow r = false) (hheader : isHeaderRow header = true)
    (h1 : "Denumire marfa" ∈ header) (h2 : "Cantitate" ∈ header)
    (h3 : "Suma cu TVA fără reducere" ∈ header) (h4 : "Data" ∉ header) :
    analyzeExcel rt (pre ++ header :: row :: post) = .panic := by
  have hf := findHeader_append pre header (row :: post) 0 hpre hheader
  rw [analyzeExcel_of_header rt _ _ _ hf, if_neg]
  · have hd : (findColumns header).dateIdx = -1 := (findColumns_dateIdx header).2 h4
    have hdrop : List.drop (0 + pre.length + 1) (pre ++ header :: row :: post) = row :: post := by
      have : 0 + pre.length + 1 = (pre ++ [header]).length := by simp
      rw [this, show pre ++ header :: row :: post = (pre ++ [header]) ++ (row :: post) by simp,
        List.drop_left]
    rw [hd, hdrop, extractDate_neg_one]
    rfl
  · rw [findColumns_nameIdx, findColumns_qtyIdx, findColumns_sumIdx]
    tauto

/-- C1 (failing input): on a sheet with the header row "Denumire marfa", "Cantitate",
"Suma cu TVA fără reducere" (no "Data" cell) and one data row below it, the analysis does
not complete: it ends in an index-out-of-range panic, for every runtime. -/
theorem analyzeExcel_sheetNoDate_panics (rt : Runtime) :
    analyzeExcel rt sheetNoDate = .panic :=
  analyzeExcel_noDateColumn_panics rt [] _ _ [] (by decide) (by decide) (by decide)
    (by decide) (by decide) (by decide)

/-! ## Ranking: the index loops compute the list recursion -/

theorem getElem?_mid {α : Type} (pre : List α) (x : α) (post : List α) :
    (pre ++ x :: post)[pre.length]? = some x := by
  induction pre with
  | nil => simp
  | cons a pre ih => simpa using ih

theorem getElem?_mid2 {α : Type} (pre : List α) (x : α) (mid : List α) (y : α)
    (post : List α) :
    (pre ++ x :: (mid ++ y :: post))[pre.length + 1 + mid.length]? = some y := by
  have h : pre ++ x :: (mid ++ y :: post) = (pre ++ x :: mid) ++ y :: post := by simp
  have h2 : pre.length + 1 + mid.length = (pre ++ x :: mid).length := by simp; omega
  rw [h, h2]
  exact getElem?_mid _ _ _

theorem set_mid {α : Type} (pre : List α) (x z : α) (post : List α) :
    (pre ++ x :: post).set pre.length z = pre ++ z :: post := by
  induction pre with
  | nil => rfl
  | cons a pre ih => simp [ih]

theorem set_mid2 {α : Type} (pre : List α) (x : α) (mid : List α) (y z : α)
    (post : List α) :
    (pre ++ x :: (mid ++ y :: post)).set (pre.length + 1 + mid.length) z
      = pre ++ x :: (mid ++ z :: post) := by
  have h : pre ++ x :: (mid ++ y :: post) = (pre ++ x :: mid) ++ y :: post := by simp
  have h2 : pre.length + 1 + mid.length = (pre ++ x :: mid).length := by simp; omega
  rw [h, h2, set_mid]
  simp

theorem swapAt_mid (pre : List Item) (x : Item) (mid : List Item) (y : Item)
    (post : List Item) :
    swapAt (pre ++ x :: (mid ++ y :: post)) pre.length (pre.length + 1 + mid.length)
      = pre ++ y :: (mid ++ x :: post) := by
  unfold swapAt
  rw [getElem?_mid, getElem?_mid2]
  simp only
  rw [set_mid, set_mid2]

theorem sortStep_mid (pre : List Item) (x : Item) (mid : List Item) (y : Item)
    (post : List Item) :
    sortStep pre.length (pre ++ x :: (mid ++ y :: post)) (pre.length + 1 + mid.length)
      = if outOfOrder x y then pre ++ y :: (mid ++ x :: post)
        else pre ++ x :: (mid ++ y :: post) := by
  unfold sortStep
  rw [getElem?_mid, getElem?_mid2]
  simp only [swapAt_mid, outOfOrder]
  by_cases h1 : x.IsPriority = y.IsPriority
  · by_cases h2 : x.Sum < y.Sum <;> simp [h1, h2]
  · by_cases h3 : (!x.IsPriority && y.IsPriority) = true <;> simp [h1, h3]

theorem sortInner_mid (pre : List Item) (todo : List Item) (x : Item) (mid : List Item) :
    (List.range' (pre.length + 1 + mid.length) todo.length).foldl (sortStep pre.length)
        (pre ++ x :: (mid ++ todo))
      = pre ++ (carry x todo).1 :: (mid ++ (carry x todo).2) := by
  induction todo generalizing x mid with
  | nil => simp [carry]
  | cons y ys ih =>
    rw [List.length_cons, List.range'_succ, List.foldl_cons, sortStep_mid]
    have e : pre.length + 1 + mid.length + 1 = pre.length + 1 + (mid ++ [x]).length := by
      simp; omega
    have e2 : pre.length + 1 + mid.length + 1 = pre.length + 1 + (mid ++ [y]).length := by
      simp; omega
    by_cases h : outOfOrder x y = true
    · have := ih y (mid ++ [x])
      simp only [List.append_assoc, List.singleton_append] at this
      rw [if_pos h, e, this]
      simp [carry, h]
    · have := ih x (mid ++ [y])
      simp only [List.append_assoc, List.singleton_append] at this
      rw [if_neg h, e2, this]
      simp [carry, h]

theorem carry_length (x : Item) (l : List Item) : (carry x l).2.length = l.length := by
  induction l generalizing x with
  | nil => rfl
  | cons y ys ih =>
    unfold carry
    split_ifs <;> simp [ih]

theorem sortInner_eq (pre : List Item) (x : Item) (rest : List Item) (n : Nat)
    (hn : n = (pre ++ x :: rest).length) :
    sortInner n (pre ++ x :: rest) pre.length
      = pre ++ (carry x rest).1 :: (carry x rest).2 := by
  have hlen : n - (pre.length + 1) = rest.length := by
    subst hn
    simp only [List.length_append, List.length_cons]
    omega
  unfold sortInner
  rw [hlen]
  simpa using sortInner_mid pre rest x []

theorem sortOuter_eq (k : Nat) (rest pre : List Item) (n : Nat)
    (hn : n = (pre ++ rest).length) (hlen : rest.length = k) :
    (List.range' pre.length k).foldl (sortInner n) (pre ++ rest)
      = pre ++ sortRec k rest := by
  induction k generalizing rest pre with
  | zero =>
    have : rest = [] := List.length_eq_zero.1 hlen
    subst this
    simp [sortRec]
  | succ k ih =>
    cases rest with
    | nil => simp at hlen
    | cons x xs =>
      have hk : xs.length = k := by simpa using hlen
      rw [List.range'_succ, List.foldl_cons, sortInner_eq pre x xs n hn]
      have hc : (carry x xs).2.length = k := by rw [carry_length, hk]
      have e : pre.length + 1 = (pre ++ [(carry x xs).1]).length := by simp
      have hn2 : n = ((pre ++ [(carry x xs).1]) ++ (carry x xs).2).length := by
        subst hn
        simp [carry_length]
      have := ih (carry x xs).2 (pre ++ [(carry x xs).1]) hn2 hc
      simp only [List.append_assoc, List.singleton_append] at this
      rw [e, this]
      simp only [sortRec]

/-- The index loops of `sortItems` compute the list recursion `sortRec`. -/
theorem sortItems_eq_sortRec (items : List Item) :
    sortItems items = sortRec items.length items := by
  unfold sortItems
  rw [List.range_eq_range']
  simpa using sortOuter_eq items.length items [] items.length (by simp) rfl

/-! ## The order of `float64` -/

theorem Float64.decide_lt (a b : Float64) : decide (a < b) = Float64.blt a b := by
  show decide (Float64.blt a b = true) = Float64.blt a b
  cases Float64.blt a b <;> rfl

theorem Float64.ge_iff_ble (a b : Float64) : a ≥ b ↔ Float64.ble b a = true := Iff.rfl

theorem Float64.blt_asymm {a b : Float64} (h : Float64.blt a b = true) :
    Float64.blt b a = false := by
  cases a <;> cases b <;> simp [Float64.blt] at h ⊢
  exact le_of_lt h

theorem Float64.blt_false_trans {a b c : Float64} (hb : b ≠ .nan)
    (h1 : Float64.blt a b = false) (h2 : Float64.blt b c = false) :
    Float64.blt a c = false := by
  cases a <;> cases b <;> cases c <;> simp [Float64.blt] at h1 h2 hb ⊢
  exact le_trans h2 h1

theorem Float64.eq_of_blt_false {a b : Float64} (ha : a ≠ .nan) (hb : b ≠ .nan)
    (h1 : Float64.blt a b = false) (h2 : Float64.blt b a = false) : a = b := by
  cases a <;> cases b <;> simp [Float64.blt] at h1 h2 ha hb ⊢
  exact le_antisymm h2 h1

theorem Float64.blt_false_iff_ble {a b : Float64} (ha : a ≠ .nan) (hb : b ≠ .nan) :
    Float64.blt a b = false ↔ Float64.ble b a = true := by
  cases a <;> cases b <;> simp [Float64.blt, Float64.ble] at ha hb ⊢

/-! ## Ranking: order and permutation -/

theorem outOfOrder_eq (a b : Item) :
    outOfOrder a b =
      if a.IsPriority = b.IsPriority then Float64.blt a.Sum b.Sum
      else !a.IsPriority && b.IsPriority := by
  unfold outOfOrder
  rw [Float64.decide_lt]

theorem outOfOrder_eq_false_iff (a b : Item) (ha : a.Sum ≠ .nan) (hb : b.Sum ≠ .nan) :
    outOfOrder a b = false ↔ RankedPair a b := by
  rw [outOfOrder_eq]
  unfold RankedPair
  rw [Float64.ge_iff_ble, ← Float64.blt_false_iff_ble ha hb]
  cases hpa : a.IsPriority <;> cases hpb : b.IsPriority <;> simp

theorem outOfOrder_trans {a b c : Item} (hb : b.Sum ≠ .nan) (h1 : outOfOrder a b = false)
    (h2 : outOfOrder b c = false) : outOfOrder a c = false := by
  rw [outOfOrder_eq] at *
  cases hpa : a.IsPriority <;> cases hpb : b.IsPriority <;> cases hpc : c.IsPriority <;>
    simp [hpa, hpb, hpc] at h1 h2 ⊢
  all_goals exact Float64.blt_false_trans hb h1 h2

theorem outOfOrder_asymm {a b : Item} (h : outOfOrder a b = true) : outOfOrder b a = false := by
  rw [outOfOrder_eq] at *
  cases hpa : a.IsPriority <;> cases hpb : b.IsPriority <;> simp [hpa, hpb] at h ⊢
  all_goals exact Float64.blt_asymm h

theorem outOfOrder_self (a : Item) : outOfOrder a a = false := by
  rw [outOfOrder_eq]
  simp only [if_true]
  cases a.Sum <;> simp [Float64.blt]

theorem carry_perm (x : Item) (l : List Item) :
    ((carry x l).1 :: (carry x l).2).Perm (x :: l) := by
  induction l generalizing x with
  | nil => exact List.Perm.refl _
  | cons y ys ih =>
    unfold carry
    split_ifs with h
    · exact ((List.Perm.swap _ _ _).trans ((ih y).cons x))
    · exact ((List.Perm.swap _ _ _).trans ((ih x).cons y)).trans (List.Perm.swap _ _ _)

theorem carry_fst_ge (x : Item) (l : List Item) (hnan : ∀ z ∈ x :: l, z.Sum ≠ .nan) :
    outOfOrder (carry x l).1 x = false ∧ ∀ z ∈ (carry x l).2, outOfOrder (carry x l).1 z = false := by
  induction l generalizing x with
  | nil =>
    refine ⟨?_, by simp [carry]⟩
    simp only [carry]
    exact outOfOrder_self x
  | cons y ys ih =>
    have hx0 : x.Sum ≠ .nan := hnan x (List.mem_cons_self _ _)
    have hy0 : y.Sum ≠ .nan := hnan y (by simp)
    have hys : ∀ z ∈ ys, z.Sum ≠ .nan := fun z hz => hnan z (by simp [hz])
    unfold carry
    by_cases h : outOfOrder x y = true
    · simp only [h, if_true]
      obtain ⟨h1, h2⟩ := ih y (fun z hz => by
        rcases List.mem_cons.1 hz with rfl | hz
        · exact hy0
        · exact hys z hz)
      have hx : outOfOrder (carry y ys).1 x = false :=
        outOfOrder_trans hy0 h1 (outOfOrder_asymm h)
      refine ⟨hx, ?_⟩
      intro z hz
      rcases List.mem_cons.1 hz with rfl | hz
      · exact hx
      · exact h2 z hz
    · simp only [h, if_false]
      have h0 : outOfOrder x y = false := by simpa using h
      obtain ⟨h1, h2⟩ := ih x (fun z hz => by
        rcases List.mem_cons.1 hz with rfl | hz
        · exact hx0
        · exact hys z hz)
      refine ⟨h1, ?_⟩
      intro z hz
      rcases List.mem_cons.1 hz with rfl | hz
      · exact outOfOrder_trans hx0 h1 h0
      · exact h2 z hz

theorem sortRec_perm (n : Nat) (l : List Item) : (sortRec n l).Perm l := by
  induction n generalizing l with
  | zero => exact List.Perm.refl _
  | succ n ih =>
    cases l with
    | nil => exact List.Perm.refl _
    | cons x xs =>
      simp only [sortRec]
      exact ((ih _).cons _).trans (carry_perm x xs)

theorem sortRec_pairwise (n : Nat) (l : List Item) (h : l.length ≤ n)
    (hnan : ∀ z ∈ l, z.Sum ≠ .nan) :
    (sortRec n l).Pairwise (fun a b => outOfOrder a b = false) := by
  induction n generalizing l with
  | zero =>
    have : l = [] := List.length_eq_zero.1 (Nat.le_zero.1 h)
    subst this
    exact List.Pairwise.nil
  | succ n ih =>
    cases l with
    | nil => exact List.Pairwise.nil
    | cons x xs =>
      simp only [sortRec]
      have hsub : ∀ z ∈ (carry x xs).2, z.Sum ≠ .nan := fun z hz =>
        hnan z ((carry_perm x xs).subset (List.mem_cons_of_mem _ hz))
      refine List.Pairwise.cons ?_ (ih _ ?_ hsub)
      · intro z hz
        exact (carry_fst_ge x xs hnan).2 z ((sortRec_perm n _).subset hz)
      · rw [carry_length]
        simpa using h

/-- Ranking only rearranges the items. -/
theorem sortItems_perm_input (items : List Item) : (sortItems items).Perm items := by
  rw [sortItems_eq_sortRec]
  exact sortRec_perm _ _

/-- After ranking no item is out of order with a later one, when no sum is NaN. -/
theorem sortItems_pairwise (items : List Item) (hnan : ∀ z ∈ items, z.Sum ≠ .nan) :
    (sortItems items).Pairwise (fun a b => outOfOrder a b = false) := by
  rw [sortItems_eq_sortRec]
  exact sortRec_pairwise _ _ (le_refl _) hnan

theorem outOfOrder_eq_keyOut (a b : Item) :
    outOfOrder a b = keyOut (rankKey a) (rankKey b) := rfl

theorem keyOut_antisymm (k1 k2 : Bool × Float64) (hn1 : k1.2 ≠ .nan) (hn2 : k2.2 ≠ .nan)
    (h1 : keyOut k1 k2 = false) (h2 : keyOut k2 k1 = false) : k1 = k2 := by
  obtain ⟨p1, s1⟩ := k1
  obtain ⟨p2, s2⟩ := k2
  unfold keyOut at *
  simp only [Float64.decide_lt] at h1 h2
  cases p1 <;> cases p2 <;> simp at h1 h2 ⊢
  all_goals exact Float64.eq_of_blt_false hn1 hn2 h1 h2

/-- Two ranked arrangements of the same items, none with a NaN sum, carry the same keys
position by position. -/
theorem ranked_keys_unique (l1 l2 : List Item) (hp : l1.Perm l2)
    (hnan : ∀ z ∈ l1, z.Sum ≠ .nan)
    (h1 : l1.Pairwise (fun a b => outOfOrder a b = false))
    (h2 : l2.Pairwise (fun a b => outOfOrder a b = false)) :
    l1.map rankKey = l2.map rankKey := by
  have anti : IsAntisymm (Bool × Float64)
      (fun k1 k2 => keyOut k1 k2 = false ∧ k1.2 ≠ .nan ∧ k2.2 ≠ .nan) :=
    ⟨fun k1 k2 h h' => keyOut_antisymm k1 k2 h.2.1 h.2.2 h.1 h'.1⟩
  have hnan2 : ∀ z ∈ l2, z.Sum ≠ .nan := fun z hz => hnan z (hp.symm.subset hz)
  refine @List.eq_of_perm_of_sorted _
    (fun k1 k2 => keyOut k1 k2 = false ∧ k1.2 ≠ .nan ∧ k2.2 ≠ .nan) anti _ _
    (hp.map rankKey) ?_ ?_
  · refine List.pairwise_map.2 (h1.imp_of_mem ?_)
    intro a b ha hb hab
    exact ⟨hab, hnan a ha, hnan b hb⟩
  · refine List.pairwise_map.2 (h2.imp_of_mem ?_)
    intro a b ha hb hab
    exact ⟨hab, hnan2 a ha, hnan2 b hb⟩

/-- Lists with the same keys, drawn from a collection on which the key determines the
item, are equal. -/
theorem eq_of_map_rankKey_eq (l1 l2 : List Item)
    (hinj : ∀ a ∈ l1, ∀ b ∈ l2, rankKey a = rankKey b → a = b)
    (h : l1.map rankKey = l2.map rankKey) : l1 = l2 := by
  induction l1 generalizing l2 with
  | nil =>
    cases l2 with
    | nil => rfl
    | cons b u => simp at h
  | cons a t ih =>
    cases l2 with
    | nil => simp at h
    | cons b u =>
      simp only [List.map_cons, List.cons.injEq] at h
      have hab : a = b := hinj a (List.mem_cons_self _ _) b (List.mem_cons_self _ _) h.1
      have ht : t = u := ih u
        (fun x hx y hy => hinj x (List.mem_cons_of_mem _ hx) y (List.mem_cons_of_mem _ hy)) h.2
      rw [hab, ht]

/-- The exchange sort is not stable: two tied items handed over before a larger one come
back in reverse order. -/
theorem sortItems_not_stable :
    sortItems [itemTieA, itemTieB, itemTieC] = [itemTieC, itemTieB, itemTieA] := by
  decide

/-! ## Claims on ranking -/

/-- C2: after `sortItems` the list is ranked (sums taken in a totally ordered number type:
no sum is NaN): for all positions `i < j`, it is not the case that `items[j]` is priority
while `items[i]` is not, and if the two items have the same priority flag then
`items[i].Sum ≥ items[j].Sum`. -/
theorem sortItems_ranked (items : List Item) (hnan : ∀ it ∈ items, it.Sum ≠ Float64.nan)
    (i j : Nat) (a b : Item) (hij : i < j)
    (ha : (sortItems items)[i]? = some a) (hb : (sortItems items)[j]? = some b) :
    ¬ (b.IsPriority = true ∧ a.IsPriority = false) ∧
      (a.IsPriority = b.IsPriority → a.Sum ≥ b.Sum) := by
  obtain ⟨hi, rfl⟩ := List.getElem?_eq_some_iff.1 ha
  obtain ⟨hj, rfl⟩ := List.getElem?_eq_some_iff.1 hb
  have h := List.pairwise_iff_getElem.1 (sortItems_pairwise items hnan) i j hi hj hij
  have hmem : ∀ k (hk : k < (sortItems items).length), (sortItems items)[k].Sum ≠ .nan :=
    fun k hk => hnan _ ((sortItems_perm_input items).subset (List.getElem_mem _))
  exact (outOfOrder_eq_false_iff _ _ (hmem i hi) (hmem j hj)).1 h

/-- Witness for C2: in the ranking of `itemsUnranked` the priority item with the larger
sum at position 0 stands before the non-priority item at position 2. -/
theorem sortItems_ranked_witness :
    ¬ ((⟨"Cookie", 1, 90, false⟩ : Item).IsPriority = true ∧
        (⟨"Latte", 3, 75, true⟩ : Item).IsPriority = false) ∧
      ((⟨"Latte", 3, 75, true⟩ : Item).IsPriority = (⟨"Cookie", 1, 90, false⟩ : Item).IsPriority →
        (⟨"Latte", 3, 75, true⟩ : Item).Sum ≥ (⟨"Cookie", 1, 90, false⟩ : Item).Sum) :=
  sortItems_ranked itemsUnranked (by decide) 0 2 ⟨"Latte", 3, 75, true⟩ ⟨"Cookie", 1, 90, false⟩
    (by decide) (by decide) (by decide)

/-- C3 (counterexample): the two grouped items `itemTieA` and `itemTieB` share tier and
sum; handed to `sortItems` in the two possible orders they come back in two different
sequences. -/
theorem sortItems_tie_order_differs :
    [itemTieA, itemTieB].Perm [itemTieB, itemTieA] ∧
      sortItems [itemTieA, itemTieB] = [itemTieA, itemTieB] ∧
      sortItems [itemTieB, itemTieA] = [itemTieB, itemTieA] ∧
      sortItems [itemTieA, itemTieB] ≠ sortItems [itemTieB, itemTieA] :=
  ⟨List.Perm.swap _ _ _, by decide, by decide, by decide⟩

/-- C3 (amended): for any two orders in which one collection of items, none with a NaN
sum, is handed to `sortItems`, the two results carry the same priority flag and the same
sum at every position, and they are the same sequence whenever no two different items of
the collection share both priority flag and sum. -/
theorem sortItems_deterministic_up_to_ties (l1 l2 : List Item) (hp : l1.Perm l2)
    (hnan : ∀ it ∈ l1, it.Sum ≠ Float64.nan) :
    (sortItems l1).map rankKey = (sortItems l2).map rankKey ∧
      ((∀ a ∈ l1, ∀ b ∈ l1, rankKey a = rankKey b → a = b) →
        sortItems l1 = sortItems l2) := by
  have hperm : (sortItems l1).Perm (sortItems l2) :=
    ((sortItems_perm_input l1).trans hp).trans (sortItems_perm_input l2).symm
  have hnan2 : ∀ it ∈ l2, it.Sum ≠ Float64.nan := fun z hz => hnan z (hp.symm.subset hz)
  have hnans : ∀ it ∈ sortItems l1, it.Sum ≠ Float64.nan :=
    fun z hz => hnan z ((sortItems_perm_input l1).subset hz)
  have hkeys := ranked_keys_unique _ _ hperm hnans (sortItems_pairwise l1 hnan)
    (sortItems_pairwise l2 hnan2)
  refine ⟨hkeys, fun hinj => eq_of_map_rankKey_eq _ _ ?_ hkeys⟩
  intro a ha b hb hab
  exact hinj a ((sortItems_perm_input l1).subset ha)
    b (hp.symm.subset ((sortItems_perm_input l2).subset hb)) hab

/-- Witness for C3 (amended): the collection `itemsUnranked` and its reverse are ranked
into the same sequence. -/
theorem sortItems_deterministic_up_to_ties_witness :
    (sortItems itemsUnranked).map rankKey = (sortItems itemsUnranked.reverse).map rankKey ∧
      sortItems itemsUnranked = sortItems itemsUnranked.reverse :=
  have h := sortItems_deterministic_up_to_ties itemsUnranked itemsUnranked.reverse
    (List.reverse_perm _).symm (by decide)
  ⟨h.1, h.2 (by decide)⟩

/-! ## Aggregation: the loop as a fold -/

theorem findColumnsFrom_nonneg (l : List String) (i : Int) (c : Columns) (hi : 0 ≤ i)
    (hc : -1 ≤ c.nameIdx ∧ -1 ≤ c.qtyIdx ∧ -1 ≤ c.sumIdx ∧ -1 ≤ c.dateIdx) :
    -1 ≤ (findColumnsFrom l i c).nameIdx ∧ -1 ≤ (findColumnsFrom l i c).qtyIdx ∧
      -1 ≤ (findColumnsFrom l i c).sumIdx ∧ -1 ≤ (findColumnsFrom l i c).dateIdx := by
  induction l generalizing i c with
  | nil => simpa [findColumnsFrom] using hc
  | cons h rest ih =>
    rw [findColumnsFrom]
    apply ih (i + 1) _ (by omega)
    unfold columnStep
    obtain ⟨h1, h2, h3, h4⟩ := hc
    split_ifs <;> refine ⟨?_, ?_, ?_, ?_⟩ <;> (try simp only) <;> omega

theorem findColumns_nonneg (headers : List String) :
    -1 ≤ (findColumns headers).nameIdx ∧ -1 ≤ (findColumns headers).qtyIdx ∧
      -1 ≤ (findColumns headers).sumIdx ∧ -1 ≤ (findColumns headers).dateIdx :=
  findColumnsFrom_nonneg headers 0 _ (le_refl _) ⟨le_refl _, le_refl _, le_refl _, le_refl _⟩

theorem cellAt_nonneg (row : List String) (i : Int) (hi : 0 ≤ i) :
    cellAt row i = row[i.toNat]? := by
  unfold cellAt
  rw [if_neg (by omega)]

theorem scanCell_eq (sscanf : String → Option Float64) (idx : Int) (row : List String)
    (hi : 0 ≤ idx) : scanCell sscanf idx row = .ok (parsedCell sscanf idx.toNat row) := by
  unfold scanCell parsedCell
  rw [cellAt_nonneg row idx hi]
  by_cases h : idx < (row.length : Int)
  · have h2 : idx.toNat < row.length := by omega
    rw [if_pos h, List.getElem?_eq_getElem h2]
    simp only
    by_cases hc : row[idx.toNat] = "" <;> simp [hc]
  · have h2 : row.length ≤ idx.toNat := by omega
    rw [if_neg h, List.getElem?_eq_none h2]

theorem foldRow_short (sscanf : String → Option Float64) (n q k : Nat) (m : List Item)
    (row : List String) (h : row.length ≤ n) : foldRow sscanf n q k m row = m := by
  unfold foldRow surviving
  rw [List.getElem?_eq_none h]
  simp

theorem foldRow_at (sscanf : String → Option Float64) (n q k : Nat) (m : List Item)
    (row : List String) (h : n < row.length) :
    foldRow sscanf n q k m row =
      if row[n] = "" then m
      else if strContains row[n] "Punga" then m
      else addRow m row[n] (parsedCell sscanf q row) (parsedCell sscanf k row) := by
  unfold foldRow surviving rowName
  rw [List.getElem?_eq_getElem h]
  by_cases h3 : row[n] = ""
  · simp [h3]
  · by_cases h4 : strContains row[n] "Punga" = true <;> simp [h3, h4]

theorem collectRows_eq_foldl (sscanf : String → Option Float64) (c : Columns)
    (hn : 0 ≤ c.nameIdx) (hq : 0 ≤ c.qtyIdx) (hs : 0 ≤ c.sumIdx)
    (rows : List (List String)) (m : List Item) :
    collectRows sscanf c rows m
      = .ok (rows.foldl (foldRow sscanf c.nameIdx.toNat c.qtyIdx.toNat c.sumIdx.toNat) m) := by
  induction rows generalizing m with
  | nil => rfl
  | cons row rest ih =>
    rw [collectRows, List.foldl_cons, cellAt_nonneg row _ hn, scanCell_eq _ _ _ hq,
      scanCell_eq _ _ _ hs]
    by_cases h : (row.length : Int) ≤ c.nameIdx
    · have h2 : row.length ≤ c.nameIdx.toNat := by omega
      rw [if_pos h, foldRow_short _ _ _ _ _ _ h2]
      exact ih m
    · have h2 : c.nameIdx.toNat < row.length := by omega
      rw [if_neg h, foldRow_at _ _ _ _ _ _ h2, List.getElem?_eq_getElem h2]
      simp only [Outcome.bind]
      by_cases h3 : row[c.nameIdx.toNat] = ""
      · rw [if_pos h3, if_pos h3]
        exact ih m
      · rw [if_neg h3, if_neg h3]
        by_cases h4 : strContains row[c.nameIdx.toNat] "Punga" = true
        · rw [if_pos h4, if_pos h4]
          exact ih m
        · rw [if_neg h4, if_neg h4]
          exact ih _

/-! ## Aggregation: the map update -/

theorem addRow_eq (m : List Item) (name : String) (q k : Float64) :
    addRow m name q k =
      (if name ∈ m.map Item.Name then m else m ++ [freshItem name]).map (bump name q k) := by
  unfold addRow
  have h : (m.any (fun it => decide (it.Name = name)) = true) ↔ name ∈ m.map Item.Name := by
    simp [List.any_eq_true]
  by_cases hm : name ∈ m.map Item.Name
  · rw [if_pos hm]
    simp only [h.2 hm, if_true]
    rfl
  · rw [if_neg hm]
    have : ¬ (m.any (fun it => decide (it.Name = name)) = true) := fun e => hm (h.1 e)
    simp only [this, if_false]
    rfl

theorem bump_name (name : String) (q k : Float64) (it : Item) : (bump name q k it).Name = it.Name := by
  unfold bump
  split_ifs <;> rfl

theorem bump_isPriority (name : String) (q k : Float64) (it : Item) :
    (bump name q k it).IsPriority = it.IsPriority := by
  unfold bump
  split_ifs <;> rfl

theorem map_bump_names (name : String) (q k : Float64) (l : List Item) :
    (l.map (bump name q k)).map Item.Name = l.map Item.Name := by
  rw [List.map_map]
  exact List.map_congr_left (fun it _ => bump_name name q k it)

theorem addRow_names (m : List Item) (name : String) (q k : Float64) :
    (addRow m name q k).map Item.Name =
      if name ∈ m.map Item.Name then m.map Item.Name else m.map Item.Name ++ [name] := by
  rw [addRow_eq, map_bump_names]
  split_ifs <;> simp [freshItem]

theorem addRow_nodup (m : List Item) (name : String) (q k : Float64)
    (h : (m.map Item.Name).Nodup) : ((addRow m name q k).map Item.Name).Nodup := by
  rw [addRow_names]
  split_ifs with hm
  · exact h
  · rw [List.nodup_append]
    refine ⟨h, List.nodup_singleton _, ?_⟩
    intro a ha hb
    rw [List.mem_singleton] at hb
    exact hm (hb ▸ ha)

theorem mem_addRow_names (m : List Item) (name : String) (q k : Float64) (n : String) :
    n ∈ (addRow m name q k).map Item.Name ↔ n ∈ m.map Item.Name ∨ n = name := by
  rw [addRow_names]
  split_ifs with hm
  · constructor
    · exact Or.inl
    · rintro (h | rfl)
      · exact h
      · exact hm
  · simp

theorem lookup_map_bump (name : String) (q k : Float64) (l : List Item) (n : String) :
    lookup (l.map (bump name q k)) n = (lookup l n).map (bump name q k) := by
  unfold lookup
  induction l with
  | nil => rfl
  | cons a t ih =>
    simp only [List.map_cons, List.find?_cons, bump_name]
    by_cases h : a.Name = n
    · simp [h]
    · simpa [h] using ih

theorem lookup_append_fresh (m : List Item) (name n : String) :
    lookup (m ++ [freshItem name]) n =
      match lookup m n with
      | some it => some it
      | none => if name = n then some (freshItem name) else none := by
  unfold lookup
  rw [List.find?_append]
  cases h : List.find? (fun it => decide (it.Name = n)) m with
  | some it => rfl
  | none =>
    by_cases hn : name = n <;> simp [freshItem, hn]

theorem lookup_eq_none_iff (m : List Item) (n : String) :
    lookup m n = none ↔ n ∉ m.map Item.Name := by
  unfold lookup
  rw [List.find?_eq_none]
  simp

theorem lookup_name (m : List Item) (n : String) (it : Item) (h : lookup m n = some it) :
    it.Name = n ∧ it ∈ m := by
  unfold lookup at h
  have h1 := List.find?_some h
  exact ⟨by simpa using h1, List.mem_of_find?_eq_some h⟩

theorem lookup_of_mem (m : List Item) (h : (m.map Item.Name).Nodup) (it : Item) (hit : it ∈ m) :
    lookup m it.Name = some it := by
  unfold lookup
  induction m with
  | nil => simp at hit
  | cons a t ih =>
    rw [List.map_cons, List.nodup_cons] at h
    rw [List.find?_cons]
    rcases List.mem_cons.1 hit with rfl | ht
    · simp
    · have hne : a.Name ≠ it.Name := by
        intro e
        exact h.1 (e ▸ List.mem_map_of_mem _ ht)
      simp only [hne, decide_False]
      exact ih h.2 ht

theorem lookup_addRow_ne (m : List Item) (name : String) (q k : Float64) (n : String)
    (hn : n ≠ name) : lookup (addRow m name q k) n = lookup m n := by
  rw [addRow_eq, lookup_map_bump]
  have hb : ∀ o : Option Item, (∀ it, o = some it → it.Name = n) →
      o.map (bump name q k) = o := by
    intro o ho
    cases o with
    | none => rfl
    | some it =>
      have := ho it rfl
      simp [bump, this, hn]
  split_ifs with hm
  · exact hb _ (fun it h => (lookup_name _ _ _ h).1)
  · rw [lookup_append_fresh]
    cases h : lookup m n with
    | some it => exact hb _ (fun it2 h2 => by cases h2; exact (lookup_name _ _ _ h).1)
    | none =>
      have hne : ¬ name = n := fun e => hn e.symm
      simp [hne]

theorem sumAt_addRow (m : List Item) (name : String) (q k : Float64) (n : String) :
    sumAt (addRow m name q k) n = if n = name then sumAt m n + k else sumAt m n := by
  by_cases hn : n = name
  · subst hn
    unfold sumAt
    rw [addRow_eq, lookup_map_bump, if_pos rfl]
    split_ifs with hm
    · cases h : lookup m n with
      | none => exact absurd hm ((lookup_eq_none_iff m n).1 h)
      | some it => simp [bump, (lookup_name _ _ _ h).1]
    · rw [lookup_append_fresh, (lookup_eq_none_iff m n).2 hm]
      simp [bump, freshItem]
  · unfold sumAt
    rw [lookup_addRow_ne m name q k n hn, if_neg hn]

theorem quantityAt_addRow (m : List Item) (name : String) (q k : Float64) (n : String) :
    quantityAt (addRow m name q k) n
      = if n = name then quantityAt m n + q else quantityAt m n := by
  by_cases hn : n = name
  · subst hn
    unfold quantityAt
    rw [addRow_eq, lookup_map_bump, if_pos rfl]
    split_ifs with hm
    · cases h : lookup m n with
      | none => exact absurd hm ((lookup_eq_none_iff m n).1 h)
      | some it => simp [bump, (lookup_name _ _ _ h).1]
    · rw [lookup_append_fresh, (lookup_eq_none_iff m n).2 hm]
      simp [bump, freshItem]
  · unfold quantityAt
    rw [lookup_addRow_ne m name q k n hn, if_neg hn]

/-! ## Aggregation: the fold over the rows -/

theorem fold_nodup (sscanf : String → Option Float64) (n q k : Nat) (rows : List (List String))
    (m : List Item) (h : (m.map Item.Name).Nodup) :
    ((rows.foldl (foldRow sscanf n q k) m).map Item.Name).Nodup := by
  induction rows generalizing m with
  | nil => exact h
  | cons row rest ih =>
    rw [List.foldl_cons]
    apply ih
    unfold foldRow
    split_ifs
    · exact addRow_nodup _ _ _ _ h
    · exact h

theorem fold_names (sscanf : String → Option Float64) (n q k : Nat) (rows : List (List String))
    (m : List Item) (x : String) :
    x ∈ (rows.foldl (foldRow sscanf n q k) m).map Item.Name ↔
      x ∈ m.map Item.Name ∨ ∃ row ∈ rows, surviving n row = true ∧ rowName n row = x := by
  induction rows generalizing m with
  | nil => simp
  | cons row rest ih =>
    rw [List.foldl_cons, ih]
    unfold foldRow
    by_cases hs : surviving n row = true
    · rw [if_pos hs, mem_addRow_names]
      constructor
      · rintro ((h | h) | ⟨r, hr, h⟩)
        · exact Or.inl h
        · exact Or.inr ⟨row, List.mem_cons_self _ _, hs, h.symm⟩
        · exact Or.inr ⟨r, List.mem_cons_of_mem _ hr, h⟩
      · rintro (h | ⟨r, hr, h⟩)
        · exact Or.inl (Or.inl h)
        · rcases List.mem_cons.1 hr with rfl | hr
          · exact Or.inl (Or.inr h.2.symm)
          · exact Or.inr ⟨r, hr, h⟩
    · rw [if_neg hs]
      constructor
      · rintro (h | ⟨r, hr, h⟩)
        · exact Or.inl h
        · exact Or.inr ⟨r, List.mem_cons_of_mem _ hr, h⟩
      · rintro (h | ⟨r, hr, h⟩)
        · exact Or.inl h
        · rcases List.mem_cons.1 hr with rfl | hr
          · exact absurd h.1 hs
          · exact Or.inr ⟨r, hr, h⟩

theorem fold_sumAt (sscanf : String → Option Float64) (n q k : Nat) (rows : List (List String))
    (m : List Item) (x : String) :
    sumAt (rows.foldl (foldRow sscanf n q k) m) x =
      (((rows.filter (surviving n)).filter (fun r => decide (rowName n r = x))).map
        (parsedCell sscanf k)).foldl (· + ·) (sumAt m x) := by
  induction rows generalizing m with
  | nil => rfl
  | cons row rest ih =>
    rw [List.foldl_cons, ih]
    unfold foldRow
    by_cases hs : surviving n row = true
    · rw [if_pos hs, sumAt_addRow, List.filter_cons_of_pos hs]
      by_cases hx : rowName n row = x
      · rw [List.filter_cons_of_pos (by simpa using hx), if_pos hx.symm]
        rfl
      · rw [List.filter_cons_of_neg (by simpa using hx), if_neg (fun e => hx e.symm)]
    · rw [if_neg hs, List.filter_cons_of_neg hs]

theorem fold_quantityAt (sscanf : String → Option Float64) (n q k : Nat)
    (rows : List (List String)) (m : List Item) (x : String) :
    quantityAt (rows.foldl (foldRow sscanf n q k) m) x =
      (((rows.filter (surviving n)).filter (fun r => decide (rowName n r = x))).map
        (parsedCell sscanf q)).foldl (· + ·) (quantityAt m x) := by
  induction rows generalizing m with
  | nil => rfl
  | cons row rest ih =>
    rw [List.foldl_cons, ih]
    unfold foldRow
    by_cases hs : surviving n row = true
    · rw [if_pos hs, quantityAt_addRow, List.filter_cons_of_pos hs]
      by_cases hx : rowName n row = x
      · rw [List.filter_cons_of_pos (by simpa using hx), if_pos hx.symm]
        rfl
      · rw [List.filter_cons_of_neg (by simpa using hx), if_neg (fun e => hx e.symm)]
    · rw [if_neg hs, List.filter_cons_of_neg hs]

/-- What a successful run consists of: the header was found, the three mandatory indices
are real positions, the date loop produced the date, and the items are the ranked entries
of the map folded from the rows below the header. -/
theorem analyzeExcel_ok_inv (rt : Runtime) (rows : List (List String)) (k : Nat)
    (header : List String) (res : AnalysisResult)
    (hf : findHeader rows 0 = some (k, header)) (h : analyzeExcel rt rows = .ok res) :
    0 ≤ (findColumns header).nameIdx ∧ 0 ≤ (findColumns header).qtyIdx ∧
      0 ≤ (findColumns header).sumIdx ∧
      extractDate (findColumns header).dateIdx (rows.drop (k + 1)) = .ok res.ReportDate ∧
      res.Items = sortItems (rt.mapRange ((rows.drop (k + 1)).foldl
        (foldRow rt.sscanf (findColumns header).nameIdx.toNat (findColumns header).qtyIdx.toNat
          (findColumns header).sumIdx.toNat) [])) ∧
      res.Text = (render res.ReportDate res.Items).2 ∧
      res.TotalSum = (render res.ReportDate res.Items).1 := by
  rw [analyzeExcel_of_header rt rows k header hf] at h
  split_ifs at h with hc
  have hnn := findColumns_nonneg header
  have h1 : 0 ≤ (findColumns header).nameIdx := by omega
  have h2 : 0 ≤ (findColumns header).qtyIdx := by omega
  have h3 : 0 ≤ (findColumns header).sumIdx := by omega
  obtain ⟨date, hd, h⟩ := Outcome.bind_eq_ok h
  obtain ⟨m, hm, h⟩ := Outcome.bind_eq_ok h
  rw [collectRows_eq_foldl _ _ h1 h2 h3] at hm
  simp only [Outcome.ok.injEq] at hm h
  subst hm
  subst h
  exact ⟨h1, h2, h3, hd, rfl, rfl, rfl⟩

/-- The items of a successful run are a rearrangement of the entries of the map. -/
theorem analyzeExcel_items_perm (rt : Runtime) (hrange : ∀ m, (rt.mapRange m).Perm m)
    (rows : List (List String)) (k : Nat) (header : List String) (res : AnalysisResult)
    (hf : findHeader rows 0 = some (k, header)) (h : analyzeExcel rt rows = .ok res) :
    res.Items.Perm ((rows.drop (k + 1)).foldl
        (foldRow rt.sscanf (findColumns header).nameIdx.toNat (findColumns header).qtyIdx.toNat
          (findColumns header).sumIdx.toNat) []) := by
  rw [(analyzeExcel_ok_inv rt rows k header res hf h).2.2.2.2.1]
  exact (sortItems_perm_input _).trans (hrange _)

/-! ## Runs that return a result -/

theorem extractDate_ok_of_nonneg (dateIdx : Int) (hd : 0 ≤ dateIdx)
    (rows : List (List String)) : ∃ date, extractDate dateIdx rows = .ok date := by
  induction rows with
  | nil => exact ⟨_, rfl⟩
  | cons row rest ih =>
    unfold extractDate
    rw [cellAt_nonneg row dateIdx hd]
    by_cases h : dateIdx < (row.length : Int)
    · have h2 : dateIdx.toNat < row.length := by omega
      rw [if_pos h, List.getElem?_eq_getElem h2]
      simp only
      by_cases hc : row[dateIdx.toNat] = ""
      · simpa [hc] using ih
      · exact ⟨row[dateIdx.toNat], by simp [hc]⟩
    · rw [if_neg h]
      exact ih

/-- A sheet whose header row carries the three mandatory labels and the label "Data" is
analysed to a result: no error and no panic, whatever rows follow the header. -/
theorem analyzeExcel_ok_of_labels (rt : Runtime) (rows : List (List String)) (k : Nat)
    (header : List String) (hf : findHeader rows 0 = some (k, header))
    (h1 : "Denumire marfa" ∈ header) (h2 : "Cantitate" ∈ header)
    (h3 : "Suma cu TVA fără reducere" ∈ header) (h4 : "Data" ∈ header) :
    ∃ res, analyzeExcel rt rows = .ok res := by
  have hnn := findColumns_nonneg header
  have e1 : (findColumns header).nameIdx ≠ -1 := fun e => (findColumns_nameIdx header).1 e h1
  have e2 : (findColumns header).qtyIdx ≠ -1 := fun e => (findColumns_qtyIdx header).1 e h2
  have e3 : (findColumns header).sumIdx ≠ -1 := fun e => (findColumns_sumIdx header).1 e h3
  have e4 : (findColumns header).dateIdx ≠ -1 := fun e => (findColumns_dateIdx header).1 e h4
  obtain ⟨date, hdate⟩ := extractDate_ok_of_nonneg (findColumns header).dateIdx (by omega)
    (rows.drop (k + 1))
  rw [analyzeExcel_of_header rt rows k header hf, if_neg (by tauto), hdate,
    collectRows_eq_foldl _ _ (by omega) (by omega) (by omega)]
  exact ⟨_, rfl⟩

/-! ## Claims on aggregation -/

/-- C4 (counterexample): on `sheetRounding` the four rows survive with the amounts 2^53, 1,
1, 1.  The Sum of the Item "Alpha" is 2^53, not 2^53 + 1: the addition is rounded.  The
Sums of the Items add up to 2^53 + 2, as a `float64` total and in exact arithmetic alike;
the amounts of the surviving rows add up to 2^53 in row order (every addition of 1 is
rounded away), to 2^53 or 2^53 + 4 in any other order, and to 2^53 + 3 in exact
arithmetic: never to 2^53 + 2. -/
theorem analyzeExcel_totals_differ :
    analyzeExcel rtInsertion sheetRounding = .ok resultRounding ∧
      (survivors (sheetRounding.getD 0 []) (sheetRounding.drop 1)).map
        (amountOf rtInsertion (sheetRounding.getD 0 [])) = [9007199254740992, 1, 1, 1] ∧
      resultRounding.Items.map Item.Sum = [9007199254740992, 2] ∧
      sumInOrder [9007199254740992, 2] = 9007199254740994 ∧
      exactSum [9007199254740992, 2] = 9007199254740994 ∧
      sumInOrder [9007199254740992, 1, 1, 1] = 9007199254740992 ∧
      exactSum [9007199254740992, 1, 1, 1] = 9007199254740995 ∧
      ∀ l ∈ ([9007199254740992, 1, 1, 1] : List Float64).permutations,
        sumInOrder l ≠ 9007199254740994 := by
  decide!

/-- C4 (amended): in the result of a run that passed header and column discovery, the Sum
(resp. Quantity) of the Item named `n` is the `float64` sum, accumulated from `0.0` in row
order, of the parsed amount (resp. quantity) cells over exactly the rows below the header
that survive filtering (name cell present, non-empty, without "Punga") and whose name cell
equals `n`. -/
theorem analyzeExcel_item_sums (rt : Runtime) (hrange : ∀ m, (rt.mapRange m).Perm m)
    (rows : List (List String)) (k : Nat) (header : List String) (res : AnalysisResult)
    (hf : findHeader rows 0 = some (k, header)) (h : analyzeExcel rt rows = .ok res) :
    ∀ n : String, ∀ it ∈ res.Items, it.Name = n →
      it.Sum = sumInOrder (((survivors header (rows.drop (k + 1))).filter
          (fun r => decide (nameOf header r = n))).map (amountOf rt header)) ∧
      it.Quantity = sumInOrder (((survivors header (rows.drop (k + 1))).filter
          (fun r => decide (nameOf header r = n))).map (quantityOf rt header)) := by
  have hperm := analyzeExcel_items_perm rt hrange rows k header res hf h
  have hnd : ((List.foldl (foldRow rt.sscanf (findColumns header).nameIdx.toNat
      (findColumns header).qtyIdx.toNat (findColumns header).sumIdx.toNat) []
      (rows.drop (k + 1))).map Item.Name).Nodup :=
    fold_nodup _ _ _ _ _ _ (by simp)
  intro n it hit hn
  have hmem := hperm.subset hit
  have hl := lookup_of_mem _ hnd it hmem
  rw [hn] at hl
  have hs := fold_sumAt rt.sscanf (findColumns header).nameIdx.toNat
    (findColumns header).qtyIdx.toNat (findColumns header).sumIdx.toNat
    (rows.drop (k + 1)) [] n
  have hq := fold_quantityAt rt.sscanf (findColumns header).nameIdx.toNat
    (findColumns header).qtyIdx.toNat (findColumns header).sumIdx.toNat
    (rows.drop (k + 1)) [] n
  have e1 : sumAt [] n = 0 := rfl
  have e2 : quantityAt [] n = 0 := rfl
  rw [e1] at hs
  rw [e2] at hq
  unfold sumAt at hs
  unfold quantityAt at hq
  rw [hl] at hs hq
  exact ⟨hs, hq⟩

/-- Witness for C4 (amended): the run on `sheetDated`, whose header is row 1, and its Item
"Latte", the total of the two rows of that name. -/
theorem analyzeExcel_item_sums_witness :
    (⟨"Latte", 3, 75, true⟩ : Item).Sum
        = sumInOrder (((survivors (sheetDated.getD 1 []) (sheetDated.drop (1 + 1))).filter
          (fun r => decide (nameOf (sheetDated.getD 1 []) r = "Latte"))).map
            (amountOf rtInsertion (sheetDated.getD 1 []))) ∧
      (⟨"Latte", 3, 75, true⟩ : Item).Quantity
        = sumInOrder (((survivors (sheetDated.getD 1 []) (sheetDated.drop (1 + 1))).filter
          (fun r => decide (nameOf (sheetDated.getD 1 []) r = "Latte"))).map
            (quantityOf rtInsertion (sheetDated.getD 1 []))) :=
  analyzeExcel_item_sums rtInsertion (fun m => List.Perm.refl m) sheetDated 1
    (sheetDated.getD 1 []) resultDated (by decide) (by decide!) "Latte" ⟨"Latte", 3, 75, true⟩
    (by decide) rfl

/-- C5: the result of a run that passed header and column discovery has exactly one Item
per distinct exact name among the surviving rows: no two Items share a Name, every
surviving row's name is the Name of some Item, and every Item's Name is the name of some
surviving row.  Names are compared as exact strings, so names that differ in letter case
or surrounding white space belong to different Items. -/
theorem analyzeExcel_one_item_per_name (rt : Runtime) (hrange : ∀ m, (rt.mapRange m).Perm m)
    (rows : List (List String)) (k : Nat) (header : List String) (res : AnalysisResult)
    (hf : findHeader rows 0 = some (k, header)) (h : analyzeExcel rt rows = .ok res) :
    (res.Items.map Item.Name).Nodup ∧
    (∀ row ∈ survivors header (rows.drop (k + 1)), ∃ it ∈ res.Items, it.Name = nameOf header row) ∧
    (∀ it ∈ res.Items, ∃ row ∈ survivors header (rows.drop (k + 1)), nameOf header row = it.Name) ∧
    (∀ r1 ∈ survivors header (rows.drop (k + 1)), ∀ r2 ∈ survivors header (rows.drop (k + 1)),
      nameOf header r1 ≠ nameOf header r2 →
      ∃ it1 ∈ res.Items, ∃ it2 ∈ res.Items,
        it1.Name = nameOf header r1 ∧ it2.Name = nameOf header r2 ∧ it1 ≠ it2) := by
  have hperm := analyzeExcel_items_perm rt hrange rows k header res hf h
  have hnd : ((List.foldl (foldRow rt.sscanf (findColumns header).nameIdx.toNat
      (findColumns header).qtyIdx.toNat (findColumns header).sumIdx.toNat) []
      (rows.drop (k + 1))).map Item.Name).Nodup :=
    fold_nodup _ _ _ _ _ _ (by simp)
  have hnames : ∀ x, x ∈ res.Items.map Item.Name ↔
      ∃ row ∈ rows.drop (k + 1),
        surviving (findColumns header).nameIdx.toNat row = true ∧
          rowName (findColumns header).nameIdx.toNat row = x := by
    intro x
    rw [(hperm.map Item.Name).mem_iff, fold_names]
    simp
  have hsurv : ∀ row ∈ survivors header (rows.drop (k + 1)),
      ∃ it ∈ res.Items, it.Name = nameOf header row := by
    intro row hrow
    rw [survivors, List.mem_filter] at hrow
    have := (hnames (nameOf header row)).2 ⟨row, hrow.1, hrow.2, rfl⟩
    simpa using this
  refine ⟨(hperm.map Item.Name).nodup_iff.2 hnd, hsurv, ?_, ?_⟩
  · intro it hit
    obtain ⟨row, hrow, hs, hn⟩ := (hnames it.Name).1 (List.mem_map_of_mem _ hit)
    exact ⟨row, by rw [survivors, List.mem_filter]; exact ⟨hrow, hs⟩, hn⟩
  · intro r1 hr1 r2 hr2 hne
    obtain ⟨it1, hit1, h1⟩ := hsurv r1 hr1
    obtain ⟨it2, hit2, h2⟩ := hsurv r2 hr2
    refine ⟨it1, hit1, it2, hit2, h1, h2, ?_⟩
    intro e
    rw [e, h2] at h1
    exact hne h1.symm

/-- Witness for C5: the run on `sheetCase`, whose three data rows are named "Latte",
"latte" and " Latte", with the map walked in reverse insertion order. -/
theorem analyzeExcel_one_item_per_name_witness :
    (resultCase.Items.map Item.Name).Nodup ∧
    (∀ row ∈ survivors (sheetCase.getD 0 []) (sheetCase.drop (0 + 1)),
      ∃ it ∈ resultCase.Items, it.Name = nameOf (sheetCase.getD 0 []) row) ∧
    (∀ it ∈ resultCase.Items, ∃ row ∈ survivors (sheetCase.getD 0 []) (sheetCase.drop (0 + 1)),
      nameOf (sheetCase.getD 0 []) row = it.Name) ∧
    (∀ r1 ∈ survivors (sheetCase.getD 0 []) (sheetCase.drop (0 + 1)),
      ∀ r2 ∈ survivors (sheetCase.getD 0 []) (sheetCase.drop (0 + 1)),
      nameOf (sheetCase.getD 0 []) r1 ≠ nameOf (sheetCase.getD 0 []) r2 →
      ∃ it1 ∈ resultCase.Items, ∃ it2 ∈ resultCase.Items,
        it1.Name = nameOf (sheetCase.getD 0 []) r1 ∧ it2.Name = nameOf (sheetCase.getD 0 []) r2 ∧
          it1 ≠ it2) :=
  analyzeExcel_one_item_per_name rtReverse (fun m => List.reverse_perm m) sheetCase 0
    (sheetCase.getD 0 []) resultCase (by decide) (by decide!)

theorem parsedCell_of_bad (sscanf : String → Option Float64) (idx : Nat) (row : List String)
    (h : BadCell sscanf idx row) : parsedCell sscanf idx row = 0 := by
  unfold parsedCell
  rcases h with h | h | ⟨cell, h, hc⟩
  · rw [h]
  · rw [h]
    rfl
  · rw [h]
    simp [hc]

theorem collectRows_cons_surviving (sscanf : String → Option Float64) (c : Columns)
    (hn : 0 ≤ c.nameIdx) (hq : 0 ≤ c.qtyIdx) (hs : 0 ≤ c.sumIdx)
    (row : List String) (rest : List (List String)) (m : List Item)
    (hsurv : surviving c.nameIdx.toNat row = true) :
    collectRows sscanf c (row :: rest) m =
      collectRows sscanf c rest (addRow m (rowName c.nameIdx.toNat row)
        (parsedCell sscanf c.qtyIdx.toNat row) (parsedCell sscanf c.sumIdx.toNat row)) := by
  rw [collectRows_eq_foldl _ _ hn hq hs, collectRows_eq_foldl _ _ hn hq hs, List.foldl_cons]
  have e : foldRow sscanf c.nameIdx.toNat c.qtyIdx.toNat c.sumIdx.toNat m row =
      addRow m (rowName c.nameIdx.toNat row) (parsedCell sscanf c.qtyIdx.toNat row)
        (parsedCell sscanf c.sumIdx.toNat row) := by
    unfold foldRow
    rw [if_pos hsurv]
  rw [e]

/-- C10: a surviving data row whose quantity cell is missing, empty or rejected by the
scanner is neither refused nor skipped: the aggregation goes on (and ends in a map, not in
an error) with the row's name updated by quantity `0` and by the row's parsed amount; and
symmetrically for an amount cell that is missing, empty or rejected.  The update adds the
two numbers to the Quantity and Sum recorded for the name. -/
theorem collectRows_silent_zero (sscanf : String → Option Float64) (c : Columns)
    (hn : 0 ≤ c.nameIdx) (hq : 0 ≤ c.qtyIdx) (hs : 0 ≤ c.sumIdx)
    (row : List String) (rest : List (List String)) (m : List Item)
    (hsurv : surviving c.nameIdx.toNat row = true) :
    (BadCell sscanf c.qtyIdx.toNat row →
      collectRows sscanf c (row :: rest) m =
        collectRows sscanf c rest (addRow m (rowName c.nameIdx.toNat row) 0
          (parsedCell sscanf c.sumIdx.toNat row))) ∧
    (BadCell sscanf c.sumIdx.toNat row →
      collectRows sscanf c (row :: rest) m =
        collectRows sscanf c rest (addRow m (rowName c.nameIdx.toNat row)
          (parsedCell sscanf c.qtyIdx.toNat row) 0)) ∧
    (∃ m2, collectRows sscanf c (row :: rest) m = .ok m2) ∧
    (∀ x y : Float64,
      quantityAt (addRow m (rowName c.nameIdx.toNat row) x y) (rowName c.nameIdx.toNat row)
        = quantityAt m (rowName c.nameIdx.toNat row) + x ∧
      sumAt (addRow m (rowName c.nameIdx.toNat row) x y) (rowName c.nameIdx.toNat row)
        = sumAt m (rowName c.nameIdx.toNat row) + y) := by
  have hstep := collectRows_cons_surviving sscanf c hn hq hs row rest m hsurv
  refine ⟨?_, ?_, ?_, ?_⟩
  · intro hbad
    rw [hstep, parsedCell_of_bad _ _ _ hbad]
  · intro hbad
    rw [hstep, parsedCell_of_bad _ _ _ hbad]
  · exact ⟨_, collectRows_eq_foldl _ _ hn hq hs _ _⟩
  · intro x y
    rw [quantityAt_addRow, sumAt_addRow, if_pos rfl, if_pos rfl]
    exact ⟨rfl, rfl⟩

/-- Witness for C10: the row "Tea", "abc", "7" met when the map holds one entry for "Tea":
the quantity stays at 1 and the sum grows from 5 to 12. -/
theorem collectRows_silent_zero_witness :
    collectRows scanDigits ⟨0, 1, 2, 3⟩ [["Tea", "abc", "7"]] [⟨"Tea", 1, 5, true⟩]
        = collectRows scanDigits ⟨0, 1, 2, 3⟩ [] (addRow [⟨"Tea", 1, 5, true⟩] "Tea" 0 7) ∧
      quantityAt (addRow [⟨"Tea", 1, 5, true⟩] "Tea" 0 7) "Tea" = 1 ∧
      sumAt (addRow [⟨"Tea", 1, 5, true⟩] "Tea" 0 7) "Tea" = 12 :=
  have h := collectRows_silent_zero scanDigits ⟨0, 1, 2, 3⟩ (by decide) (by decide) (by decide)
    ["Tea", "abc", "7"] [] [⟨"Tea", 1, 5, true⟩] (by decide)
  ⟨(h.1 (Or.inr (Or.inr ⟨"abc", by decide, by decide⟩))).trans (by decide!),
    (h.2.2.2 0 7).1.trans (by decide!), (h.2.2.2 0 7).2.trans (by decide!)⟩

/-! ## Report text: lemmas -/

theorem renderLoop_eq (items : List Item) (i : Nat) (acc : Float64 × String) :
    renderLoop items i acc =
      (((items.take (30 - i)).map Item.Sum).foldl (· + ·) acc.1,
       acc.2 ++ renderBody (items.take (30 - i))) := by
  induction items generalizing i acc with
  | nil => simp [renderLoop, renderBody]
  | cons a t ih =>
    unfold renderLoop
    by_cases h : i ≥ 30
    · have e : 30 - i = 0 := by omega
      simp [h, e, renderBody]
    · have e : 30 - i = (30 - (i + 1)) + 1 := by omega
      rw [if_neg h, ih, e, List.take_succ_cons]
      simp [renderBody, String.append_assoc]

theorem render_fst (date : String) (items : List Item) :
    (render date items).1 = sumInOrder ((items.take 30).map Item.Sum) := by
  unfold render
  rw [renderLoop_eq]
  split_ifs <;> rfl

theorem render_snd (date : String) (items : List Item) :
    (render date items).2 =
      renderHead date ++ renderBody (items.take 30) ++
        (if items.length > 30 then overflowNotice (items.length - 30) else "") := by
  unfold render
  rw [renderLoop_eq]
  split_ifs <;> simp

theorem renderBody_data (l : List Item) :
    (renderBody l).data = [] ∨ ∃ t, (renderBody l).data = t ++ ['\n'] := by
  induction l with
  | nil => exact Or.inl rfl
  | cons a rest ih =>
    right
    rcases ih with h | ⟨t, h⟩
    · refine ⟨(padRight40 a.Name ++ " " ++ fmtFloat a.Quantity ++ " " ++ fmtFloat a.Sum).data, ?_⟩
      simp only [renderBody, renderLine, String.data_append, h, List.append_nil]
    · refine ⟨(renderLine a).data ++ t, ?_⟩
      simp only [renderBody, String.data_append, h, List.append_assoc]

theorem head_body_data (date : String) (l : List Item) :
    ∃ t, (renderHead date ++ renderBody l).data = t ++ ['\n'] := by
  rcases renderBody_data l with h | ⟨t, h⟩
  · refine ⟨("📅 Дата отчёта: " ++ date ++ "\n\n📊 Отчёт по продажам:\n").data, ?_⟩
    simp [renderHead, String.data_append, h]
  · exact ⟨(renderHead date).data ++ t, by simp only [String.data_append, h, List.append_assoc]⟩

theorem digitChar_ne_newline (d : Nat) (h : d < 10) : Nat.digitChar d ≠ '\n' := by
  interval_cases d <;> decide

theorem digitChar_value (d : Nat) (h : d < 10) : (Nat.digitChar d).toNat - 48 = d := by
  interval_cases d <;> rfl

theorem toDigitsCore_no_newline (fuel n : Nat) (ds : List Char) (h : '\n' ∉ ds) :
    '\n' ∉ Nat.toDigitsCore 10 fuel n ds := by
  induction fuel generalizing n ds with
  | zero => simpa [Nat.toDigitsCore] using h
  | succ f ih =>
    have hd : '\n' ∉ Nat.digitChar (n % 10) :: ds := by
      intro hm
      rcases List.mem_cons.1 hm with e | e
      · exact digitChar_ne_newline _ (Nat.mod_lt _ (by decide)) e.symm
      · exact h e
    unfold Nat.toDigitsCore
    simp only
    split_ifs
    · exact hd
    · exact ih _ _ hd

theorem toDigitsCore_value (fuel n : Nat) (ds : List Char) (h : n < fuel) :
    (Nat.toDigitsCore 10 fuel n ds).foldl (fun a c => 10 * a + (c.toNat - 48)) 0
      = ds.foldl (fun a c => 10 * a + (c.toNat - 48)) n := by
  induction fuel generalizing n ds with
  | zero => omega
  | succ f ih =>
    have hv : 10 * (n / 10) + ((Nat.digitChar (n % 10)).toNat - 48) = n := by
      rw [digitChar_value _ (Nat.mod_lt _ (by decide))]
      omega
    unfold Nat.toDigitsCore
    simp only
    split_ifs with h0
    · rw [List.foldl_cons]
      rw [h0] at hv
      rw [hv]
    · rw [ih _ _ (by omega), List.foldl_cons, hv]

theorem digitsValue_toDigits (n : Nat) : digitsValue (Nat.toDigits 10 n) = n := by
  unfold digitsValue Nat.toDigits
  rw [toDigitsCore_value _ _ _ (Nat.lt_succ_self n)]
  rfl

theorem overflowNotice_data (k : Nat) :
    (overflowNotice k).data = noticeHead ++ (Nat.toDigits 10 k ++ noticeTail) := by
  simp only [overflowNotice, String.data_append, List.append_assoc]
  rfl

theorem overflowNotice_inj (a b : Nat) (h : (overflowNotice a).data = (overflowNotice b).data) :
    a = b := by
  rw [overflowNotice_data, overflowNotice_data] at h
  have h1 := List.append_cancel_left h
  have hlen : (Nat.toDigits 10 a).length = (Nat.toDigits 10 b).length := by
    have := congrArg List.length h1
    simp only [List.length_append] at this
    omega
  have h2 := (List.append_inj h1 hlen).1
  rw [← digitsValue_toDigits a, ← digitsValue_toDigits b, h2]

theorem overflowNotice_suffix (a b : Nat)
    (h : (overflowNotice a).data <:+ (overflowNotice b).data) : a = b := by
  obtain ⟨t, ht⟩ := h
  cases t with
  | nil => exact overflowNotice_inj a b (by simpa using ht)
  | cons c t =>
    exfalso
    rw [overflowNotice_data a, overflowNotice_data b] at ht
    have hc : c = '\n' := by
      have := congrArg List.head? ht
      simpa [noticeHead] using this
    have h1 : List.count '\n' noticeHead = 1 := by decide
    have h2 : List.count '\n' noticeTail = 0 := by decide
    have h3 : ∀ n, List.count '\n' (Nat.toDigits 10 n) = 0 := fun n =>
      List.count_eq_zero.2 (toDigitsCore_no_newline _ _ _ (List.not_mem_nil _))
    have h4 : 0 < List.count '\n' (c :: t) :=
      List.count_pos_iff.2 (hc ▸ List.mem_cons_self _ _)
    have hcount := congrArg (List.count '\n') ht
    simp only [List.count_append, h1, h2, h3] at hcount
    omega

/-- The text and the total of a successful run are those rendered from its date and its
items. -/
theorem analyzeExcel_ok_render (rt : Runtime) (rows : List (List String))
    (res : AnalysisResult) (h : analyzeExcel rt rows = .ok res) :
    res.Text = (render res.ReportDate res.Items).2 ∧
      res.TotalSum = (render res.ReportDate res.Items).1 := by
  cases hf : findHeader rows 0 with
  | none => simp [analyzeExcel, hf] at h
  | some p =>
    obtain ⟨k, header⟩ := p
    have := analyzeExcel_ok_inv rt rows k header res hf h
    exact ⟨this.2.2.2.2.2.1, this.2.2.2.2.2.2⟩

theorem noticeTail_data : noticeTail = " позиций. Полный отчёт — в файле".data ++ ['.'] := by
  decide

/-- No overflow notice is a suffix of a text that ends in a line break. -/
theorem overflowNotice_not_suffix (k : Nat) (t : List Char) :
    ¬ (overflowNotice k).data <:+ t ++ ['\n'] := by
  rintro ⟨u, hu⟩
  rw [overflowNotice_data, noticeTail_data] at hu
  have hu2 : (u ++ (noticeHead ++ (Nat.toDigits 10 k ++
      " позиций. Полный отчёт — в файле".data))) ++ ['.'] = t ++ ['\n'] := by
    simpa [List.append_assoc] using hu
  have := (List.append_inj' hu2 rfl).2
  exact absurd this (by decide)

/-! ## Claims on the report text -/

/-- C6 (counterexample): on `sheetAbsorb` there are 31 items and the one beyond position
30 has the sum 1, not 0; yet the TotalSum 2^53 + 60 is also the total over all 31 items,
both as the `float64` total in rank order (adding 1 to 2^53 + 60 is rounded away) and in
exact arithmetic, while the first thirty sums add up to 2^53 + 59 in exact arithmetic. -/
theorem analyzeExcel_totalSum_absorbs :
    analyzeExcel rtInsertion sheetAbsorb = .ok resultAbsorb ∧
      resultAbsorb.Items.length = 31 ∧
      (resultAbsorb.Items.drop 30).map Item.Sum = [1] ∧
      resultAbsorb.TotalSum = 9007199254741052 ∧
      sumInOrder (resultAbsorb.Items.map Item.Sum) = 9007199254741052 ∧
      exactSum (resultAbsorb.Items.map Item.Sum) = 9007199254741052 ∧
      exactSum ((resultAbsorb.Items.take 30).map Item.Sum) = 9007199254741051 := by
  decide!

/-- C6 (amended): the TotalSum of a result is the `float64` sum, accumulated from `0.0` in
rank order, of Sum over the first min(30, len(items)) items of the ranked sequence only,
not over all items: whatever items follow the first thirty, the total is the same. -/
theorem analyzeExcel_totalSum_first30 (rt : Runtime) (rows : List (List String))
    (res : AnalysisResult) (h : analyzeExcel rt rows = .ok res) :
    res.TotalSum = sumInOrder ((res.Items.take (min 30 res.Items.length)).map Item.Sum) ∧
      ∀ others : List Item, 30 ≤ res.Items.length →
        (render res.ReportDate (res.Items.take 30 ++ others)).1 = res.TotalSum := by
  have ht : res.TotalSum = sumInOrder ((res.Items.take 30).map Item.Sum) := by
    rw [(analyzeExcel_ok_render rt rows res h).2, render_fst]
  have hmin : res.Items.take (min 30 res.Items.length) = res.Items.take 30 := by
    rcases Nat.le_total 30 res.Items.length with hle | hle
    · rw [Nat.min_eq_left hle]
    · rw [Nat.min_eq_right hle, List.take_of_length_le hle, List.take_of_length_le (le_refl _)]
  refine ⟨by rw [hmin, ht], ?_⟩
  intro others hle
  rw [render_fst, ht]
  congr 2
  have hl : (res.Items.take 30).length = 30 := by
    rw [List.length_take]
    omega
  rw [List.take_append_of_le_length (by omega), List.take_take, Nat.min_self]

/-- The run on `sheetLong` with map iteration in insertion order yields `resultLong`. -/
theorem analyzeExcel_sheetLong : analyzeExcel rtInsertion sheetLong = .ok resultLong := by
  decide!

/-- The TotalSum of `resultLong` is 495, and the sums of its 31 items add up to 496. -/
theorem resultLong_sums :
    resultLong.TotalSum = 495 ∧ sumInOrder (resultLong.Items.map Item.Sum) = 496 := by
  decide!

/-- Witness for C6 (amended): the run on `sheetLong` yields 31 items whose sums add up to
496, and the TotalSum 495 of the first thirty. -/
theorem analyzeExcel_totalSum_first30_witness :
    resultLong.TotalSum
        = sumInOrder ((resultLong.Items.take (min 30 resultLong.Items.length)).map Item.Sum) ∧
      resultLong.TotalSum = 495 ∧ sumInOrder (resultLong.Items.map Item.Sum) = 496 :=
  ⟨(analyzeExcel_totalSum_first30 rtInsertion sheetLong resultLong analyzeExcel_sheetLong).1,
    resultLong_sums⟩

/-- C7: the text of a result over `n` ranked items ends with the overflow notice stating
`k` exactly when `n > 30` and `k = n - 30`; so no notice ends the text for `n ≤ 30` (in
particular for `n = 30`), and for `n = 31` the notice states 1. -/
theorem analyzeExcel_overflow_notice (rt : Runtime) (rows : List (List String))
    (res : AnalysisResult) (h : analyzeExcel rt rows = .ok res) (k : Nat) :
    (overflowNotice k).data <:+ res.Text.data ↔
      30 < res.Items.length ∧ k = res.Items.length - 30 := by
  have ht := (analyzeExcel_ok_render rt rows res h).1
  rw [render_snd] at ht
  by_cases hn : res.Items.length > 30
  · rw [if_pos hn] at ht
    have hsuf : (overflowNotice (res.Items.length - 30)).data <:+ res.Text.data := by
      rw [ht, String.data_append]
      exact List.suffix_append _ _
    constructor
    · intro hk
      refine ⟨hn, ?_⟩
      rcases List.suffix_or_suffix_of_suffix hk hsuf with h1 | h1
      · exact overflowNotice_suffix _ _ h1
      · exact (overflowNotice_suffix _ _ h1).symm
    · rintro ⟨-, rfl⟩
      exact hsuf
  · rw [if_neg hn] at ht
    constructor
    · intro hk
      exfalso
      obtain ⟨t, e⟩ := head_body_data res.ReportDate (res.Items.take 30)
      rw [ht, String.data_append, e] at hk
      exact overflowNotice_not_suffix k t (by simpa using hk)
    · rintro ⟨h1, -⟩
      exact absurd h1 hn

/-- Witness for C7: the text of the run on `sheetLong` (31 items) ends with the notice
stating 1. -/
theorem analyzeExcel_overflow_notice_witness :
    (overflowNotice 1).data <:+ resultLong.Text.data ↔
      30 < resultLong.Items.length ∧ 1 = resultLong.Items.length - 30 :=
  analyzeExcel_overflow_notice rtInsertion sheetLong resultLong (by decide!) 1

/-! ## Priority classification -/

theorem toLowerChar_of_not_special (c : Char) (h1 : c.toNat ≠ 0x212A) (h2 : c.toNat ≠ 0x130)
    (h3 : ¬ (c.toNat ≥ 65 ∧ c.toNat ≤ 90)) : toLowerChar c = c := by
  unfold toLowerChar
  rw [if_neg h1, if_neg h2]
  unfold Char.toLower
  simp only [h3, if_false]

theorem toLowerChar_facts (c : Char) :
    isSpace (toLowerChar c) = isSpace c ∧ toLowerChar (toLowerChar c) = toLowerChar c := by
  by_cases h1 : c.toNat = 0x212A
  · have hc : c = Char.ofNat 0x212A := by rw [← h1, Char.ofNat_toNat]
    subst hc
    decide
  · by_cases h2 : c.toNat = 0x130
    · have hc : c = Char.ofNat 0x130 := by rw [← h2, Char.ofNat_toNat]
      subst hc
      decide
    · by_cases h3 : c.toNat ≥ 65 ∧ c.toNat ≤ 90
      · have hc : c = Char.ofNat c.toNat := (Char.ofNat_toNat c).symm
        obtain ⟨ha, hb⟩ := h3
        generalize c.toNat = n at hc ha hb
        subst hc
        interval_cases n <;> decide
      · rw [toLowerChar_of_not_special c h1 h2 h3]
        exact ⟨rfl, toLowerChar_of_not_special c h1 h2 h3⟩

theorem trimList_map_toLowerChar (l : List Char) :
    trimList (l.map toLowerChar) = (trimList l).map toLowerChar := by
  have hcomp : (isSpace ∘ toLowerChar) = isSpace := by
    funext c
    exact (toLowerChar_facts c).1
  unfold trimList
  rw [List.dropWhile_map, hcomp, ← List.map_reverse, List.dropWhile_map, hcomp,
    List.map_reverse]

theorem dropWhile_fixed_iff (l : List Char) :
    l.dropWhile isSpace = l ↔ ∀ x, l.head? = some x → isSpace x = false := by
  cases l with
  | nil => simp
  | cons x t =>
    rw [List.dropWhile_cons]
    by_cases hx : isSpace x = true
    · simp only [hx, if_true, List.head?_cons, Option.some.injEq, forall_eq',
        Bool.true_eq_false, iff_false]
      intro e
      have := (List.dropWhile_suffix isSpace (l := t)).length_le
      rw [e] at this
      simp at this
    · simp [hx]

theorem dropWhile_rdropWhile_of_fixed (a : List Char) (h : a.dropWhile isSpace = a) :
    (a.rdropWhile isSpace).dropWhile isSpace = a.rdropWhile isSpace := by
  rw [dropWhile_fixed_iff] at h ⊢
  intro x hx
  obtain ⟨u, hu⟩ := List.rdropWhile_prefix isSpace a
  apply h x
  rw [← hu]
  cases hr : a.rdropWhile isSpace with
  | nil => simp [hr] at hx
  | cons y t =>
    rw [hr] at hx
    simpa using hx

theorem trimList_idempotent (l : List Char) : trimList (trimList l) = trimList l := by
  have e : ∀ x : List Char, trimList x = (x.dropWhile isSpace).rdropWhile isSpace := fun _ => rfl
  rw [e, e, dropWhile_rdropWhile_of_fixed _ (List.dropWhile_idempotent _ _),
    List.rdropWhile_idempotent]

theorem toLower_trimSpace_idempotent (s : String) :
    toLower (trimSpace (toLower (trimSpace s))) = toLower (trimSpace s) := by
  have e : ∀ x : String, toLower (trimSpace x) = String.mk ((trimList x.data).map toLowerChar) :=
    fun _ => rfl
  rw [e, e]
  congr 1
  simp only
  rw [trimList_map_toLowerChar, trimList_idempotent, List.map_map]
  exact List.map_congr_left (fun c _ => (toLowerChar_facts c).2)

/-- C11: `isPriority` is invariant under case and surrounding white space: for every
string `s`, `isPriority s = isPriority (ToLower (TrimSpace s))`, so two names with the same
lower-cased trimmed form get the same classification; in particular " Latte ", "LATTE" and
"latte" are classified alike, and as priority. -/
theorem isPriority_normalized :
    (∀ s : String, isPriority s = isPriority (toLower (trimSpace s))) ∧
    (∀ s t : String, toLower (trimSpace s) = toLower (trimSpace t) →
      isPriority s = isPriority t) ∧
    isPriority " Latte " = isPriority "latte" ∧ isPriority "LATTE" = isPriority "latte" ∧
    isPriority "latte" = true := by
  refine ⟨?_, ?_, by decide, by decide, by decide⟩
  · intro s
    unfold isPriority
    rw [toLower_trimSpace_idempotent]
  · intro s t h
    unfold isPriority
    rw [h]

/-- Witness for C11: " Latte " and "LATTE" have the same lower-cased trimmed form. -/
theorem isPriority_normalized_witness :
    isPriority " Latte " = isPriority "LATTE" :=
  isPriority_normalized.2.1 " Latte " "LATTE" (by decide)

/-! ## Claims on the priority flag, the running totals and the date -/

theorem addRow_flag (m : List Item) (name : String) (q k : Float64)
    (h : ∀ it ∈ m, it.IsPriority = isPriority it.Name) :
    ∀ it ∈ addRow m name q k, it.IsPriority = isPriority it.Name := by
  intro it hit
  rw [addRow_eq, List.mem_map] at hit
  obtain ⟨it0, h0, rfl⟩ := hit
  rw [bump_isPriority, bump_name]
  split_ifs at h0 with hm
  · exact h it0 h0
  · rcases List.mem_append.1 h0 with h1 | h1
    · exact h it0 h1
    · rw [List.mem_singleton] at h1
      subst h1
      rfl

theorem fold_flag (sscanf : String → Option Float64) (n q k : Nat) (rows : List (List String))
    (m : List Item) (h : ∀ it ∈ m, it.IsPriority = isPriority it.Name) :
    ∀ it ∈ rows.foldl (foldRow sscanf n q k) m, it.IsPriority = isPriority it.Name := by
  induction rows generalizing m with
  | nil => exact h
  | cons row rest ih =>
    rw [List.foldl_cons]
    apply ih
    unfold foldRow
    split_ifs
    · exact addRow_flag _ _ _ _ h
    · exact h

theorem lookup_addRow_flag (m : List Item) (name : String) (q k : Float64) (n : String)
    (it : Item) (h : lookup m n = some it) :
    ∃ it2, lookup (addRow m name q k) n = some it2 ∧ it2.IsPriority = it.IsPriority := by
  refine ⟨bump name q k it, ?_, bump_isPriority _ _ _ _⟩
  rw [addRow_eq, lookup_map_bump]
  split_ifs with hm
  · rw [h]
    rfl
  · rw [lookup_append_fresh, h]
    rfl

/-- C12: in every result each Item's priority flag is the classification of its own name,
`item.IsPriority = isPriority item.Name`; and a later row never changes the flag of an
entry the map already holds. -/
theorem analyzeExcel_flag_of_name (rt : Runtime) (hrange : ∀ m, (rt.mapRange m).Perm m)
    (rows : List (List String)) (res : AnalysisResult)
    (h : analyzeExcel rt rows = .ok res) :
    (∀ it ∈ res.Items, it.IsPriority = isPriority it.Name) ∧
    (∀ (m : List Item) (name : String) (q k : Float64) (n : String) (it : Item),
      lookup m n = some it →
      ∃ it2, lookup (addRow m name q k) n = some it2 ∧ it2.IsPriority = it.IsPriority) := by
  refine ⟨?_, fun m name q k n it hl => lookup_addRow_flag m name q k n it hl⟩
  cases hf : findHeader rows 0 with
  | none => simp [analyzeExcel, hf] at h
  | some p =>
    obtain ⟨k, header⟩ := p
    have hperm := analyzeExcel_items_perm rt hrange rows k header res hf h
    intro it hit
    exact fold_flag _ _ _ _ _ _ (by simp) it (hperm.subset hit)

/-- Witness for C12: the run on `sheetDated`. -/
theorem analyzeExcel_flag_of_name_witness :
    (∀ it ∈ resultDated.Items, it.IsPriority = isPriority it.Name) ∧
    (∀ (m : List Item) (name : String) (q k : Float64) (n : String) (it : Item),
      lookup m n = some it →
      ∃ it2, lookup (addRow m name q k) n = some it2 ∧ it2.IsPriority = it.IsPriority) :=
  analyzeExcel_flag_of_name rtInsertion (fun m => List.Perm.refl m) sheetDated resultDated
    (by decide!)

/-- C13 (counterexample): a row "Tea", "1", "5" followed by a row "Tea", "-1", "-5": folding
the second row lowers the Quantity and the Sum recorded for "Tea". -/
theorem collectRows_negative_row_lowers :
    collectRows scanSigned ⟨0, 1, 2, 3⟩ [["Tea", "1", "5"]] [] = .ok [⟨"Tea", 1, 5, true⟩] ∧
      collectRows scanSigned ⟨0, 1, 2, 3⟩ [["Tea", "-1", "-5"]] [⟨"Tea", 1, 5, true⟩]
        = .ok [⟨"Tea", 0, 0, true⟩] ∧
      quantityAt [⟨"Tea", 0, 0, true⟩] "Tea" < quantityAt [⟨"Tea", 1, 5, true⟩] "Tea" ∧
      sumAt [⟨"Tea", 0, 0, true⟩] "Tea" < sumAt [⟨"Tea", 1, 5, true⟩] "Tea" := by
  decide!

/-- C13 (amended): folding a surviving row replaces the Quantity and Sum recorded for the
row's name by their `float64` sums with the row's parsed quantity and amount, and leaves
every other name as it was.  When the value before and the parsed number are finite and
their `float64` sum is exact, the value after is greater than or equal to the value before
whenever the parsed number is not negative. -/
theorem collectRows_row_adds (sscanf : String → Option Float64) (c : Columns)
    (hn : 0 ≤ c.nameIdx) (hq : 0 ≤ c.qtyIdx) (hs : 0 ≤ c.sumIdx)
    (row : List String) (m : List Item)
    (hsurv : surviving c.nameIdx.toNat row = true) :
    ∃ m2, collectRows sscanf c [row] m = .ok m2 ∧
      quantityAt m2 (rowName c.nameIdx.toNat row)
        = quantityAt m (rowName c.nameIdx.toNat row) + parsedCell sscanf c.qtyIdx.toNat row ∧
      sumAt m2 (rowName c.nameIdx.toNat row)
        = sumAt m (rowName c.nameIdx.toNat row) + parsedCell sscanf c.sumIdx.toNat row ∧
      (∀ n, n ≠ rowName c.nameIdx.toNat row →
        quantityAt m2 n = quantityAt m n ∧ sumAt m2 n = sumAt m n) ∧
      (∀ a b : ℚ, quantityAt m (rowName c.nameIdx.toNat row) = .fin a →
        parsedCell sscanf c.qtyIdx.toNat row = .fin b →
        Float64.fin a + Float64.fin b = .fin (a + b) → 0 ≤ b →
        quantityAt m (rowName c.nameIdx.toNat row) ≤ quantityAt m2 (rowName c.nameIdx.toNat row)) ∧
      (∀ a b : ℚ, sumAt m (rowName c.nameIdx.toNat row) = .fin a →
        parsedCell sscanf c.sumIdx.toNat row = .fin b →
        Float64.fin a + Float64.fin b = .fin (a + b) → 0 ≤ b →
        sumAt m (rowName c.nameIdx.toNat row) ≤ sumAt m2 (rowName c.nameIdx.toNat row)) := by
  have hle : ∀ a b : ℚ, 0 ≤ b → Float64.fin a ≤ Float64.fin (a + b) := by
    intro a b hb
    show Float64.ble (.fin a) (.fin (a + b)) = true
    simp only [Float64.ble, decide_eq_true_eq]
    linarith
  refine ⟨addRow m (rowName c.nameIdx.toNat row) (parsedCell sscanf c.qtyIdx.toNat row)
    (parsedCell sscanf c.sumIdx.toNat row), ?_, ?_, ?_, ?_, ?_, ?_⟩
  · rw [collectRows_cons_surviving sscanf c hn hq hs row [] m hsurv]
    rfl
  · rw [quantityAt_addRow, if_pos rfl]
  · rw [sumAt_addRow, if_pos rfl]
  · intro n hne
    rw [quantityAt_addRow, sumAt_addRow, if_neg hne, if_neg hne]
    exact ⟨rfl, rfl⟩
  · intro a b ha hb hex h0
    rw [quantityAt_addRow, if_pos rfl, ha, hb, hex]
    exact hle a b h0
  · intro a b ha hb hex h0
    rw [sumAt_addRow, if_pos rfl, ha, hb, hex]
    exact hle a b h0

/-- Witness for C13 (amended): the row "Tea", "2", "7" folded into a map that holds "Tea"
with quantity 1 and sum 5. -/
theorem collectRows_row_adds_witness :
    ∃ m2, collectRows scanDigits ⟨0, 1, 2, 3⟩ [["Tea", "2", "7"]] [⟨"Tea", 1, 5, true⟩] = .ok m2 ∧
      quantityAt m2 "Tea" = 3 ∧ sumAt m2 "Tea" = 12 ∧
      quantityAt [⟨"Tea", 1, 5, true⟩] "Tea" ≤ quantityAt m2 "Tea" ∧
      sumAt [⟨"Tea", 1, 5, true⟩] "Tea" ≤ sumAt m2 "Tea" :=
  have h := collectRows_row_adds scanDigits ⟨0, 1, 2, 3⟩ (by decide) (by decide) (by decide)
    ["Tea", "2", "7"] [⟨"Tea", 1, 5, true⟩] (by decide)
  h.elim fun m2 hm => ⟨m2, hm.1, hm.2.1.trans (by decide!), hm.2.2.1.trans (by decide!),
    hm.2.2.2.2.1 1 2 (by decide!) (by decide!) (by decide!) (by decide),
    hm.2.2.2.2.2 5 7 (by decide!) (by decide!) (by decide!) (by decide)⟩

theorem extractDate_eq_firstDated (dateIdx : Int) (hd : 0 ≤ dateIdx)
    (rows : List (List String)) :
    extractDate dateIdx rows = .ok (firstDated dateIdx.toNat rows) := by
  induction rows with
  | nil => rfl
  | cons row rest ih =>
    unfold extractDate firstDated
    rw [cellAt_nonneg row dateIdx hd, List.find?_cons]
    by_cases h : dateIdx < (row.length : Int)
    · have h2 : dateIdx.toNat < row.length := by omega
      rw [if_pos h, List.getElem?_eq_getElem h2]
      have hg : row.getD dateIdx.toNat "" = row[dateIdx.toNat] := by
        rw [List.getD_eq_getElem?_getD, List.getElem?_eq_getElem h2]
        rfl
      by_cases hc : row[dateIdx.toNat] = ""
      · simp only [hc, ne_eq, not_true_eq_false, if_false, hg, h2, decide_True, decide_False,
          Bool.and_false]
        rw [ih]
        rfl
      · simp only [hc, ne_eq, not_false_eq_true, if_true, hg, h2, decide_True, Bool.and_self]
    · have h2 : ¬ dateIdx.toNat < row.length := by omega
      rw [if_neg h]
      simp only [h2, decide_False, Bool.false_and]
      rw [ih]
      rfl

/-- C14: on a sheet whose header row carries the three mandatory labels and "Data", the
analysis returns a result whose ReportDate is the date cell of the first row below the
header that is long enough to have a date cell and whose date cell is not empty, whether
or not that row yields an item, and is "неизвестна" when there is no such row; rows too
short to have a date cell are passed over. -/
theorem analyzeExcel_reportDate (rt : Runtime) (rows : List (List String)) (k : Nat)
    (header : List String) (hf : findHeader rows 0 = some (k, header))
    (h1 : "Denumire marfa" ∈ header) (h2 : "Cantitate" ∈ header)
    (h3 : "Suma cu TVA fără reducere" ∈ header) (h4 : "Data" ∈ header) :
    ∃ res, analyzeExcel rt rows = .ok res ∧
      res.ReportDate = firstDated (findColumns header).dateIdx.toNat (rows.drop (k + 1)) := by
  obtain ⟨res, hres⟩ := analyzeExcel_ok_of_labels rt rows k header hf h1 h2 h3 h4
  refine ⟨res, hres, ?_⟩
  have hnn := findColumns_nonneg header
  have e4 : (findColumns header).dateIdx ≠ -1 := fun e => (findColumns_dateIdx header).1 e h4
  have hd := (analyzeExcel_ok_inv rt rows k header res hf hres).2.2.2.1
  rw [extractDate_eq_firstDated _ (by omega)] at hd
  simp only [Outcome.ok.injEq] at hd
  exact hd.symm

/-- Witness for C14: on `sheetDates` the date comes from the third data row, which has no
name and yields no item. -/
theorem analyzeExcel_reportDate_witness :
    ∃ res, analyzeExcel rtInsertion sheetDates = .ok res ∧
      res.ReportDate = "05.06.2024" :=
  have h := analyzeExcel_reportDate rtInsertion sheetDates 0 (sheetDates.getD 0 [])
    (by decide) (by decide) (by decide) (by decide) (by decide)
  h.elim fun res hres => ⟨res, hres.1, hres.2.trans (by decide)⟩

/-! ## Claims on the name field, the example scenario and the rearrangement -/

theorem fmtFloat_eq (x : Float64) :
    fmtFloat x = String.mk (List.replicate (10 - (fixed2 x).length) ' ') ++ fixed2 x := rfl

theorem padRight40_length (s : String) : (padRight40 s).length = max 40 s.length := by
  unfold padRight40
  rw [String.length_append]
  simp only [String.length, List.length_replicate]
  omega

theorem fmtFloat_length (x : Float64) : (fmtFloat x).length = max 10 (fixed2 x).length := by
  rw [fmtFloat_eq, String.length_append]
  simp only [String.length, List.length_replicate]
  omega

/-- C15 (counterexample): the run on `sheetLongName`, whose item has a name of 45
characters, renders the name in full: the name field of the body line is 45 characters
long, not 40. -/
theorem analyzeExcel_long_name_not_truncated :
    analyzeExcel rtInsertion sheetLongName = .ok resultLongName ∧
      longName.length = 45 ∧
      resultLongName.Text = renderHead "07.08.2024" ++
        (longName ++ " " ++ "      1.00" ++ " " ++ "      2.00" ++ "\n") ∧
      (padRight40 longName).length ≠ 40 := by
  decide!

/-- C15 (amended): the body of the rendered report is one line per displayed item, and
each line is the name field, a space, the quantity field, a space, the sum field and a
line break.  The name field is the name followed by the spaces that fill it up to 40
characters; it is `max 40 (length of the name)` characters long, so a name longer than 40
characters is printed in full.  The quantity and sum fields are at least 10 characters
long. -/
theorem analyzeExcel_name_field (rt : Runtime) (rows : List (List String))
    (res : AnalysisResult) (h : analyzeExcel rt rows = .ok res) :
    res.Text = renderHead res.ReportDate ++ renderBody (res.Items.take 30) ++
        (if res.Items.length > 30 then overflowNotice (res.Items.length - 30) else "") ∧
    ∀ item : Item,
      renderLine item = padRight40 item.Name ++ " " ++ fmtFloat item.Quantity ++ " " ++
        fmtFloat item.Sum ++ "\n" ∧
      (padRight40 item.Name).data
        = item.Name.data ++ List.replicate (40 - item.Name.length) ' ' ∧
      (padRight40 item.Name).length = max 40 item.Name.length ∧
      (fmtFloat item.Quantity).length = max 10 (fixed2 item.Quantity).length ∧
      (fmtFloat item.Sum).length = max 10 (fixed2 item.Sum).length := by
  refine ⟨?_, fun item => ⟨rfl, rfl, padRight40_length _, fmtFloat_length _, fmtFloat_length _⟩⟩
  rw [(analyzeExcel_ok_render rt rows res h).1, render_snd]

/-- Witness for C15 (amended): the run on `sheetLongName`. -/
theorem analyzeExcel_name_field_witness :
    resultLongName.Text = renderHead resultLongName.ReportDate ++
        renderBody (resultLongName.Items.take 30) ++
        (if resultLongName.Items.length > 30 then
          overflowNotice (resultLongName.Items.length - 30) else "") ∧
      (padRight40 longName).length = max 40 longName.length :=
  have h := analyzeExcel_name_field rtInsertion sheetLongName resultLongName (by decide!)
  ⟨h.1, (h.2 ⟨longName, 1, 2, false⟩).2.2.1⟩

/-- Ranking does not depend on the order in which the items are handed over when the
ranking key determines the item and no sum is NaN. -/
theorem sortItems_eq_of_perm (l1 l2 : List Item) (hp : l1.Perm l2)
    (hnan : ∀ it ∈ l2, it.Sum ≠ Float64.nan)
    (hinj : ∀ a ∈ l2, ∀ b ∈ l2, rankKey a = rankKey b → a = b) :
    sortItems l1 = sortItems l2 := by
  have hperm : (sortItems l1).Perm (sortItems l2) :=
    ((sortItems_perm_input l1).trans hp).trans (sortItems_perm_input l2).symm
  have hnan1 : ∀ it ∈ l1, it.Sum ≠ Float64.nan := fun z hz => hnan z (hp.subset hz)
  have hnans : ∀ it ∈ sortItems l1, it.Sum ≠ Float64.nan :=
    fun z hz => hnan1 z ((sortItems_perm_input l1).subset hz)
  refine eq_of_map_rankKey_eq _ _ ?_
    (ranked_keys_unique _ _ hperm hnans (sortItems_pairwise l1 hnan1)
      (sortItems_pairwise l2 hnan))
  intro a ha b hb hab
  exact hinj a (hp.subset ((sortItems_perm_input l1).subset ha))
    b ((sortItems_perm_input l2).subset hb) hab

/-- C16: for the sheet of the example scenario (rows "Latte" 2/50, "latte" 1/25 and
"Punga cadou" 1/2 under the four-label header) the analysis returns a result with exactly
the two Items "Latte" (Quantity 2, Sum 50, priority) and "latte" (Quantity 1, Sum 25,
priority), in that order, no Item for "Punga cadou", and TotalSum 75. -/
theorem analyzeExcel_example (rt : Runtime) (hrange : ∀ m, (rt.mapRange m).Perm m)
    (s2 : rt.sscanf "2" = some 2) (s50 : rt.sscanf "50" = some 50)
    (s1 : rt.sscanf "1" = some 1) (s25 : rt.sscanf "25" = some 25) :
    ∃ res, analyzeExcel rt sheetExample = .ok res ∧
      res.Items = [⟨"Latte", 2, 50, true⟩, ⟨"latte", 1, 25, true⟩] ∧
      (∀ it ∈ res.Items, it.Name ≠ "Punga cadou") ∧
      res.TotalSum = 75 := by
  have hf : findHeader sheetExample 0
      = some (0, ["Denumire marfa", "Cantitate", "Suma cu TVA fără reducere", "Data"]) := by
    decide
  obtain ⟨res, hres⟩ := analyzeExcel_ok_of_labels rt sheetExample 0 _ hf (by decide) (by decide)
    (by decide) (by decide)
  have hinv := analyzeExcel_ok_inv rt sheetExample 0 _ res hf hres
  have hc : findColumns ["Denumire marfa", "Cantitate", "Suma cu TVA fără reducere", "Data"]
      = ⟨0, 1, 2, 3⟩ := by decide
  have hfold : List.foldl (foldRow rt.sscanf 0 1 2) []
      [["Latte", "2", "50"], ["latte", "1", "25"], ["Punga cadou", "1", "2"]]
      = [⟨"Latte", 2, 50, true⟩, ⟨"latte", 1, 25, true⟩] := by
    have a1 : surviving 0 ["Latte", "2", "50"] = true := by decide
    have a2 : surviving 0 ["latte", "1", "25"] = true := by decide
    have a3 : surviving 0 ["Punga cadou", "1", "2"] = false := by decide
    have q1 : parsedCell rt.sscanf 1 ["Latte", "2", "50"] = 2 := by simp [parsedCell, s2]
    have k1 : parsedCell rt.sscanf 2 ["Latte", "2", "50"] = 50 := by simp [parsedCell, s50]
    have q2 : parsedCell rt.sscanf 1 ["latte", "1", "25"] = 1 := by simp [parsedCell, s1]
    have k2 : parsedCell rt.sscanf 2 ["latte", "1", "25"] = 25 := by simp [parsedCell, s25]
    simp only [List.foldl, foldRow, a1, a2, a3, q1, k1, q2, k2, if_true, Bool.false_eq_true,
      if_false]
    decide!
  have hitems : res.Items = [⟨"Latte", 2, 50, true⟩, ⟨"latte", 1, 25, true⟩] := by
    rw [hinv.2.2.2.2.1, hc]
    have hd : List.drop (0 + 1) sheetExample
        = [["Latte", "2", "50"], ["latte", "1", "25"], ["Punga cadou", "1", "2"]] := rfl
    rw [hd]
    simp only [Int.toNat_ofNat]
    have e0 : (0 : Int).toNat = 0 := rfl
    have e1 : (1 : Int).toNat = 1 := rfl
    have e2 : (2 : Int).toNat = 2 := rfl
    rw [e0, e1, e2, hfold, sortItems_eq_of_perm _ _ (hrange _) (by decide) (by decide)]
    decide
  refine ⟨res, hres, hitems, ?_, ?_⟩
  · rw [hitems]
    decide
  · rw [hinv.2.2.2.2.2.2, render_fst, hitems]
    decide!

/-- Witness for C16: the runtime with the digit scanner and map iteration in reverse
insertion order. -/
theorem analyzeExcel_example_witness :
    ∃ res, analyzeExcel rtReverse sheetExample = .ok res ∧
      res.Items = [⟨"Latte", 2, 50, true⟩, ⟨"latte", 1, 25, true⟩] ∧
      (∀ it ∈ res.Items, it.Name ≠ "Punga cadou") ∧
      res.TotalSum = 75 :=
  analyzeExcel_example rtReverse (fun m => List.reverse_perm m) (by decide!) (by decide!)
    (by decide!) (by decide!)

/-- C18: `sortItems` only rearranges: the list after is a permutation of the list before,
of the same length, and holds every Item (name, quantity, sum and flag together) as many
times as before. -/
theorem sortItems_rearranges (items : List Item) :
    (sortItems items).Perm items ∧ (sortItems items).length = items.length ∧
      ∀ it : Item, (sortItems items).count it = items.count it :=
  ⟨sortItems_perm_input items, (sortItems_perm_input items).length_eq,
    fun it => (sortItems_perm_input items).count_eq it⟩

/-! ## Claims on the chat handler -/

theorem utf8Len_bounds (l : List Char) :
    l.length ≤ String.utf8Len l ∧ String.utf8Len l ≤ 4 * l.length := by
  induction l with
  | nil => simp
  | cons c t ih =>
    have h1 := Char.utf8Size_pos c
    have h2 := Char.utf8Size_le_four c
    simp only [String.utf8Len_cons, List.length_cons]
    omega

/-- C17 (counterexample): a text of exactly 4000 one-byte characters is replaced by the
notice; and the report of the run on `sheetCyrillic`, a text of fewer than 4000 characters
with Cyrillic names, is replaced by the notice as well. -/
theorem deliverText_counts_bytes :
    text4000.length = 4000 ∧ deliverText text4000 = tooLongNotice ∧
      deliverText text4000 ≠ text4000 ∧
      analyzeExcel rtInsertion sheetCyrillic = .ok resultCyrillic ∧
      resultCyrillic.Text.length < 4000 ∧
      deliverText resultCyrillic.Text = tooLongNotice ∧
      deliverText resultCyrillic.Text ≠ resultCyrillic.Text := by
  decide!

/-- C17 (amended): the delivery step sends the report text itself exactly when its length
in bytes is less than 4000, and the notice exactly when its length in bytes is 4000 or
more (or the text is the notice); a text of `n` characters is between `n` and `4 * n`
bytes long. -/
theorem deliverText_by_bytes (text : String) :
    (deliverText text = text ↔ text.utf8ByteSize < 4000) ∧
    (deliverText text = tooLongNotice ↔ 4000 ≤ text.utf8ByteSize ∨ text = tooLongNotice) ∧
    text.length ≤ text.utf8ByteSize ∧ text.utf8ByteSize ≤ 4 * text.length := by
  have hnotice : tooLongNotice.utf8ByteSize < 4000 := by decide
  refine ⟨?_, ?_, (utf8Len_bounds text.data).1, (utf8Len_bounds text.data).2⟩
  · unfold deliverText
    constructor
    · intro h
      by_contra hc
      rw [if_neg hc] at h
      rw [← h] at hc
      exact hc hnotice
    · intro h
      rw [if_pos h]
  · unfold deliverText
    constructor
    · intro h
      by_cases hc : text.utf8ByteSize < 4000
      · rw [if_pos hc] at h
        exact Or.inr h
      · exact Or.inl (by omega)
    · rintro (h | h)
      · rw [if_neg (by omega)]
      · rw [h, if_pos hnotice]


theorem digitChar_isDigit (d : Nat) (h : d < 10) : (Nat.digitChar d).isDigit = true := by
  interval_cases d <;> decide

theorem toDigitsCore_isDigit (fuel n : Nat) (ds : List Char)
    (h : ∀ c ∈ ds, c.isDigit = true) :
    ∀ c ∈ Nat.toDigitsCore 10 fuel n ds, c.isDigit = true := by
  induction fuel generalizing n ds with
  | zero => simpa [Nat.toDigitsCore] using h
  | succ f ih =>
    have hd : ∀ c ∈ Nat.digitChar (n % 10) :: ds, c.isDigit = true := by
      intro c hc
      rcases List.mem_cons.1 hc with e | e
      · rw [e]
        exact digitChar_isDigit _ (Nat.mod_lt _ (by decide))
      · exact h c e
    unfold Nat.toDigitsCore
    simp only
    split_ifs
    · exact hd
    · exact ih _ _ hd

theorem toDigits_isDigit (n : Nat) : ∀ c ∈ Nat.toDigits 10 n, c.isDigit = true :=
  toDigitsCore_isDigit _ _ _ (fun _ h => absurd h (List.not_mem_nil _))

theorem isDigit_value_le (c : Char) (h : c.isDigit = true) : c.toNat - 48 ≤ 9 := by
  unfold Char.isDigit at h
  simp only [ge_iff_le, Bool.and_eq_true, decide_eq_true_eq] at h
  have h2 : c.val.toNat ≤ 57 := h.2
  have : c.toNat = c.val.toNat := rfl
  omega

/-- A number of at least two digits is written with at least two digit characters. -/
theorem toDigits_two (n : Nat) (h : 10 ≤ n) :
    ∃ d1 d2 rest, Nat.toDigits 10 n = d1 :: d2 :: rest ∧ d1.isDigit = true ∧
      d2.isDigit = true := by
  have hv := digitsValue_toDigits n
  have hd := toDigits_isDigit n
  cases hl : Nat.toDigits 10 n with
  | nil =>
    rw [hl] at hv
    simp [digitsValue] at hv
    omega
  | cons d1 t =>
    cases t with
    | nil =>
      rw [hl] at hv hd
      have := isDigit_value_le d1 (hd d1 (List.mem_cons_self _ _))
      simp [digitsValue] at hv
      omega
    | cons d2 rest =>
      rw [hl] at hd
      exact ⟨d1, d2, rest, rfl, hd d1 (by simp), hd d2 (by simp)⟩

theorem buttonLabel_data (i : Nat) (r : Report) :
    (buttonLabel i r).data = Nat.toDigits 10 (i + 1) ++
      ('.' :: ' ' :: (r.Date.data ++ (" - ".data ++ ((fixed2 r.TotalSum).data ++ " лей".data)))) := by
  simp only [buttonLabel, String.data_append, List.append_assoc]
  rfl

/-- A text that starts with a digit is none of the three menu commands. -/
theorem handleUpdate_of_digit (reports : List Report) (text : String) (d : Char)
    (rest : List Char) (hdata : text.data = d :: rest) (hd : d.isDigit = true) :
    handleUpdate reports text =
      match selectReport reports text with
      | some reportText => [⟨reportText, []⟩]
      | none => [] := by
  have hne : ∀ s : String, (∀ c t, s.data = c :: t → c.isDigit = false) → text ≠ s := by
    intro s hs e
    rw [e] at hdata
    have := hs d rest hdata
    rw [hd] at this
    exact Bool.noConfusion this
  have h1 : text ≠ "/start" := hne _ (by
    intro c t h
    have : c = '/' := by
      have := congrArg List.head? h
      simpa using this.symm
    rw [this]; decide)
  have h2 : text ≠ "📊 Анализировать новый файл" := hne _ (by
    intro c t h
    have : c = '📊' := by
      have := congrArg List.head? h
      simpa using this.symm
    rw [this]; decide)
  have h3 : text ≠ "📁 Посмотреть историю отчётов" := hne _ (by
    intro c t h
    have : c = '📁' := by
      have := congrArg List.head? h
      simpa using this.symm
    rw [this]; decide)
  unfold handleUpdate
  rw [if_neg h1, if_neg h2, if_neg h3]

theorem historyButtonsFrom_getElem (reports : List Report) (j i : Nat) (r : Report)
    (hr : reports[i]? = some r) :
    (historyButtonsFrom reports j)[i]? = some (buttonLabel (j + i) r) := by
  induction reports generalizing j i with
  | nil => simp at hr
  | cons a t ih =>
    cases i with
    | zero =>
      simp only [List.getElem?_cons_zero, Option.some.injEq] at hr
      subst hr
      simp [historyButtonsFrom]
    | succ i =>
      simp only [List.getElem?_cons_succ] at hr
      have := ih (j + 1) i hr
      simp only [historyButtonsFrom, List.getElem?_cons_succ, this]
      congr 2
      omega

/-- The label of one of the first nine buttons selects the report it was built for. -/
theorem selectReport_label (reports : List Report) (i : Nat) (r : Report)
    (hr : reports[i]? = some r) (hi : i < 9) :
    selectReport reports (buttonLabel i r) = some r.Text := by
  have hlen : i < reports.length := by
    by_contra hc
    rw [List.getElem?_eq_none (by omega)] at hr
    exact Option.noConfusion hr
  have hdata := buttonLabel_data i r
  have hsel : isSelection (buttonLabel i r) = true := by
    unfold isSelection hasPrefix
    rw [hdata]
    interval_cases i <;> simp [Nat.toDigits, Nat.toDigitsCore, Nat.digitChar]
  have hfirst : firstPart (buttonLabel i r) = String.mk (Nat.toDigits 10 (i + 1)) := by
    unfold firstPart
    rw [hdata]
    interval_cases i <;> simp [Nat.toDigits, Nat.toDigitsCore, Nat.digitChar, List.takeWhile]
  have hatoi : atoi (String.mk (Nat.toDigits 10 (i + 1))) = some ((i : Int) + 1) := by
    interval_cases i <;> decide
  unfold selectReport
  rw [if_pos hsel, hfirst, hatoi]
  simp only
  rw [if_pos ⟨by omega, by omega⟩]
  have e : ((i : Int) + 1 - 1).toNat = i := by omega
  rw [e, hr]
  rfl

/-- The label of a button from the tenth on does not start with a digit and a dot. -/
theorem isSelection_label_false (i : Nat) (r : Report) (hi : 9 ≤ i) :
    isSelection (buttonLabel i r) = false := by
  obtain ⟨d1, d2, rest, hd, -, h2⟩ := toDigits_two (i + 1) (by omega)
  have hdot : d2 ≠ '.' := by
    intro e
    rw [e] at h2
    exact absurd h2 (by decide)
  unfold isSelection hasPrefix
  rw [buttonLabel_data, hd]
  have hdot2 : ¬ '.' = d2 := fun e => hdot e.symm
  simp [hdot2]

/-- C19: the history buttons are labelled "k. <date> - <total> лей" with k the position of
the report.  Received back as message text, the label of one of the first nine positions
makes `handleUpdate` reply with the text of the report at that position; the label of a
position from the tenth on starts with none of "1." ... "9.", the selection branch is not
taken and nothing is sent. -/
theorem handleUpdate_history_selection (reports : List Report) (i : Nat) (r : Report)
    (hr : reports[i]? = some r) :
    (historyButtonsFrom reports 0)[i]? = some (buttonLabel i r) ∧
    (i < 9 → handleUpdate reports (buttonLabel i r) = [⟨r.Text, []⟩]) ∧
    (9 ≤ i → isSelection (buttonLabel i r) = false ∧
      handleUpdate reports (buttonLabel i r) = []) := by
  have hdigit : ∃ d rest, (buttonLabel i r).data = d :: rest ∧ d.isDigit = true := by
    have hall := toDigits_isDigit (i + 1)
    have hv := digitsValue_toDigits (i + 1)
    cases hl : Nat.toDigits 10 (i + 1) with
    | nil =>
      rw [hl] at hv
      simp [digitsValue] at hv
    | cons d t =>
      rw [hl] at hall
      exact ⟨d, _, by rw [buttonLabel_data, hl]; rfl, hall d (List.mem_cons_self _ _)⟩
  obtain ⟨d, rest, hdata, hd⟩ := hdigit
  have hshape := handleUpdate_of_digit reports (buttonLabel i r) d rest hdata hd
  refine ⟨?_, ?_, ?_⟩
  · simpa using historyButtonsFrom_getElem reports 0 i r hr
  · intro hi
    rw [hshape, selectReport_label reports i r hr hi]
  · intro hi
    have hsel := isSelection_label_false i r hi
    refine ⟨hsel, ?_⟩
    rw [hshape]
    unfold selectReport
    rw [hsel]
    rfl

/-- Witness for C19: the second of two stored reports. -/
theorem handleUpdate_history_selection_witness :
    (historyButtonsFrom reportsTwo 0)[1]? = some "2. 03.04.2024 - 95.00 лей" ∧
      handleUpdate reportsTwo "2. 03.04.2024 - 95.00 лей" = [⟨"second report", []⟩] :=
  have h := handleUpdate_history_selection reportsTwo 1
    ⟨"03.04.2024", "second report", 95, "2024-04-03T10:00:00Z"⟩ (by decide)
  ⟨h.1.trans (by decide!), (h.2.1 (by decide)).symm ▸ (by decide!)⟩

end ExcelAnalytics
